import Mathlib

/-!
# Verification of `mindsdb/integrations/utilities/time_series_utils.py`

A shallow embedding of the module's dataframe-manipulating functions, and
proofs settling the specification claims about them.

Modelling conventions:
* A pandas `DataFrame` is a `DF`: an ordered list of column names plus rows,
  each row an association list from column name to `Value`.  Reading a column
  absent from a row yields `Value.nan` (pandas' missing-data semantics after
  `pd.concat` column alignment).
* Scalar cell values are `Value`: strings, rational numbers (standing for the
  numeric dtypes), timestamps (as integers, standing for `datetime64` ticks),
  and NaN.
* Third-party collaborators that the module merely invokes (pandas
  `resample(...).mean()`, `pd.to_datetime`, `pd.infer_freq`,
  `to_offset(...).freqstr`, and the optional `hierarchicalforecast` library)
  are passed in as function parameters, exactly at the call boundary the
  Python code uses; the module's own control flow, renaming, grouping,
  joining/splitting and selection logic is embedded concretely.
* Python exceptions are modelled with `Except PyErr` / `Option`: a `none` or
  `.error` result stands for the call raising.
* All recursion is structural or fuel-based so every definition evaluates by
  kernel reduction (`decide` / `rfl`) on concrete inputs.
-/

set_option maxRecDepth 4000

/-- Scalar cell values of a dataframe. -/
inductive Value where
  | str (s : String)
  | num (q : ℚ)
  | time (t : Int)
  | nan
  deriving DecidableEq, Repr

/-- Python `str(v)`: the string rendering used by `.astype(str)`.  Only the
rendering of already-string values matters to the claims; the other cases fix
an arbitrary concrete rendering. -/
def Value.toStr : Value → String
  | .str s => s
  | .num q => toString q
  | .time t => toString t
  | .nan => "nan"

/-- A dataframe row: an association list from column name to value. -/
abbrev Row := List (String × Value)

/-- Read a cell.  A key absent from the row reads as `NaN` (pandas missing
data introduced by `pd.concat` column alignment). -/
def rget (r : Row) (c : String) : Value :=
  match r.find? (fun p => p.1 == c) with
  | some p => p.2
  | none => Value.nan

/-- Python `df[col] = v` at row level: overwrite the entry in place if the
key exists, else append the new column entry at the end. -/
def rowSet (r : Row) (c : String) (v : Value) : Row :=
  if r.any (fun p => p.1 == c) then
    r.map (fun p => if p.1 == c then (c, v) else p)
  else r ++ [(c, v)]

/-- A pandas dataframe: ordered column names and rows. -/
structure DF where
  cols : List String
  rows : List Row
  deriving DecidableEq, Repr

/-- Column-name union in `pd.concat` order: columns of the first frame, then
new columns of the second in order of appearance. -/
def listUnion (a b : List String) : List String :=
  a ++ b.filter (fun c => !(a.contains c))

/-- The values of one column, top to bottom. -/
def colVals (df : DF) (c : String) : List Value :=
  df.rows.map (fun r => rget r c)

/-- Python `df[col] = series` (column assignment): overwrite in place or
append at the right edge. -/
def DF.setCol (df : DF) (c : String) (f : Row → Value) : DF :=
  { cols := if df.cols.contains c then df.cols else df.cols ++ [c],
    rows := df.rows.map (fun r => rowSet r c (f r)) }

/-- `df.rename(mapping, axis=1)`: rename columns (and row keys) through `f`. -/
def DF.renameWith (df : DF) (f : String → String) : DF :=
  { cols := df.cols.map f,
    rows := df.rows.map (fun r => r.map (fun p => (f p.1, p.2))) }

/-- `df.drop(c, axis=1)` (presence of `c` is checked by callers). -/
def DF.dropCol (df : DF) (c : String) : DF :=
  { cols := df.cols.filter (fun x => !(x == c)),
    rows := df.rows.map (fun r => r.filter (fun p => !(p.1 == c))) }

/-- `df[cs]` column selection: `none` models the `KeyError` raised when a
requested column is absent. -/
def DF.select (df : DF) (cs : List String) : Option DF :=
  if cs.all (fun c => df.cols.contains c) then
    some { cols := cs, rows := df.rows.map (fun r => cs.map (fun c => (c, rget r c))) }
  else none

/-- `df[c] = g(df[c])` applied cell-wise to an existing column (callers
ensure presence; on a row lacking the key this is a no-op, matching the fact
that such rows simply have no cell to transform). -/
def DF.mapColVals (df : DF) (c : String) (g : Value → Value) : DF :=
  { cols := df.cols,
    rows := df.rows.map (fun r => r.map (fun p => if p.1 == c then (p.1, g p.2) else p)) }

/-- `df.insert(0, c, v)`: constant column at position 0. -/
def DF.insertFront (df : DF) (c : String) (v : Value) : DF :=
  { cols := c :: df.cols, rows := df.rows.map (fun r => (c, v) :: r) }

/-! ## Character-level string utilities (Python `str.split`, `str.join`,
`in`, `str.replace`) -/

/-- Is `p` an initial segment of `s`? -/
def isPre : List Char → List Char → Bool
  | [], _ => true
  | _ :: _, [] => false
  | a :: as, b :: bs => a == b && isPre as bs

/-- Python `pat in s` (substring containment). -/
def containsSub (pat : List Char) : List Char → Bool
  | [] => isPre pat []
  | c :: rest => isPre pat (c :: rest) || containsSub pat rest

/-- Python `s.split(sep)` for a single-character separator: always returns at
least one (possibly empty) part. -/
def splitChars (sep : Char) : List Char → List (List Char)
  | [] => [[]]
  | c :: rest =>
    match splitChars sep rest with
    | [] => [[]]
    | p :: ps => if c == sep then [] :: p :: ps else (c :: p) :: ps

/-- Python `sep.join(parts)` at character level. -/
def joinChars (sep : List Char) : List (List Char) → List Char
  | [] => []
  | [p] => p
  | p :: ps => p ++ sep ++ joinChars sep ps

/-- Python `s.split("/")`. -/
def pySplit (sep : Char) (s : String) : List String :=
  (splitChars sep s.data).map String.mk

/-- Python `"/".join(parts)`. -/
def pyJoin (sep : String) (parts : List String) : String :=
  String.mk (joinChars sep.data (parts.map String.data))

/-- Left-to-right non-overlapping replacement, fuelled so it evaluates by
kernel reduction; with fuel `>= s.length` it is Python `s.replace(pat, rep)`. -/
def replaceAux (pat rep : List Char) : Nat → List Char → List Char
  | 0, s => s
  | _ + 1, [] => []
  | fuel + 1, c :: rest =>
    if !pat.isEmpty && isPre pat (c :: rest) then
      rep ++ replaceAux pat rep fuel ((c :: rest).drop pat.length)
    else
      c :: replaceAux pat rep fuel rest

/-- Python `s.replace(pat, rep)` (pandas `.str.replace(pat, rep)`): replaces
every non-overlapping occurrence, left to right. -/
def pyReplace (pat rep s : String) : String :=
  String.mk (replaceAux pat.data rep.data s.data.length s.data)

/-! ## Generic helpers mirroring numpy / pandas primitives -/

/-- First-occurrence deduplication (pandas `Series.unique`), fuelled for
kernel evaluation. -/
def firstDedupAux {α : Type} [DecidableEq α] : Nat → List α → List α
  | 0, _ => []
  | _ + 1, [] => []
  | fuel + 1, a :: l => a :: firstDedupAux fuel (l.filter (fun b => !(b == a)))

/-- pandas `Series.unique()`: first occurrences, original order. -/
def firstDedup {α : Type} [DecidableEq α] (l : List α) : List α :=
  firstDedupAux l.length l

/-- Stable insertion into a `<`-sorted list (equal keys keep input order). -/
def insertSorted {α : Type} (lt : α → α → Bool) (a : α) : List α → List α
  | [] => [a]
  | b :: l => if lt a b then a :: b :: l else b :: insertSorted lt a l

/-- Stable sort (models pandas/numpy sorting; structural recursion so it
evaluates in the kernel). -/
def insertionSort {α : Type} (lt : α → α → Bool) : List α → List α
  | [] => []
  | a :: l => insertSorted lt a (insertionSort lt l)

/-- `np.diff`: successive differences. -/
def listDiffs : List Int → List Int
  | [] => []
  | [_] => []
  | a :: b :: l => (b - a) :: listDiffs (b :: l)

/-- `np.argmax`: index of the first maximum. -/
def argmaxIdx (l : List Nat) : Nat :=
  match l with
  | [] => 0
  | a :: rest => go rest a 0 1
where
  go : List Nat → Nat → Nat → Nat → Nat
    | [], _, bestIdx, _ => bestIdx
    | x :: xs, bestVal, bestIdx, i =>
      if bestVal < x then go xs x i (i + 1) else go xs bestVal bestIdx (i + 1)

/-- `np.unique(diffs, return_counts=True)`: sorted distinct values paired
with their multiplicities. -/
def npUniqueCounts (l : List Int) : List Int × List Nat :=
  let values := insertionSort (fun a b => a < b) (firstDedup l)
  (values, values.map (fun v => l.count v))

/-- `values[np.argmax(counts)]`: the statistical mode of the deltas
(ties resolved to the smallest value, as `np.unique` sorts ascending and
`np.argmax` takes the first maximum). -/
def modeDelta (l : List Int) : Int :=
  let (values, counts) := npUniqueCounts l
  values.getD (argmaxIdx counts) 0

/-! ## The module's data model -/

/-- The `settings_dict` / `model_args` dictionary: the keys this module
reads. -/
structure Settings where
  frequency : String
  group_by : List String
  order_by : String
  target : String
  hierarchy : List String
  deriving DecidableEq, Repr

/-- Python exceptions relevant to this module. -/
inductive PyErr where
  | typeErr
  | unboundLocalErr
  | otherErr
  deriving DecidableEq, Repr

/-! ## `spec_hierarchy_from_list` -/

/-- `spec_hierarchy_from_list(col_list)`: root spec plus one cumulative path
per hierarchy level. -/
def spec_hierarchy_from_list (col_list : List String) : List (List String) :=
  let spec := [["Total"]]
  spec ++ (List.range col_list.length).map (fun i => ["Total"] ++ col_list.take (i + 1))

/-! ## `transform_to_nixtla_df` -/

/-- A resampler: models pandas `series.resample(freq).mean()` on a
`(timestamp, target)` series — a third-party collaborator of the module
(spec section 6), passed at the exact call boundary the Python code uses. -/
abbrev Resampler := String → List (Value × Value) → List (Value × Value)

/-- Rows admissible as group members: pandas `groupby` drops rows whose key
contains a missing value. -/
def keyedRows (df : DF) (bys : List String) : List Row :=
  df.rows.filter (fun r => bys.all (fun c => !(rget r c == Value.nan)))

/-- The group keys of `df.groupby(by=bys)` (one tuple per group; the
iteration order of the embedding is first appearance, which differs from
pandas' sorted group order only in row order of the concatenated result). -/
def groupKeys (df : DF) (bys : List String) : List (List Value) :=
  firstDedup ((keyedRows df bys).map (fun r => bys.map (rget r)))

/-- The member rows of one group, in original order. -/
def groupRows (df : DF) (bys : List String) (k : List Value) : List Row :=
  (keyedRows df bys).filter (fun r => bys.map (rget r) == k)

/-- The per-group resampling loop of `transform_to_nixtla_df`: for each
group, set a datetime index from the popped order column, resample the
target with mean aggregation, re-attach the group-key columns, reset the
index, and concatenate everything (starting from an empty frame carrying the
original columns, so `pd.concat` keeps every original column, new rows
holding `NaN` outside `[order_by, target] ++ group_by`).  `none` models the
`KeyError` when a named column is absent. -/
def resample_step (toDT : Value → Value) (rs : Resampler) (df : DF) (s : Settings) : Option DF :=
  if s.order_by ∈ df.cols ∧ s.target ∈ df.cols ∧ ∀ g ∈ s.group_by, g ∈ df.cols then
    some { cols := listUnion df.cols ([s.order_by, s.target] ++ s.group_by),
           rows := (groupKeys df s.group_by).flatMap (fun k =>
             (rs s.frequency ((groupRows df s.group_by k).map
                 (fun r => (toDT (rget r s.order_by), rget r s.target)))).map
               (fun tv => (s.order_by, tv.1) :: (s.target, tv.2) :: s.group_by.zip k)) }
  else none

/-- `nixtla_df[col] = nixtla_df[col].astype(str)` over the grouping
columns. -/
def astype_str_cols (df : DF) (cs : List String) : DF :=
  cs.foldl (fun d c => d.mapColVals c (fun v => Value.str v.toStr)) df

/-- `nixtla_df["unique_id"] = nixtla_df[group_by].agg("/".join, axis=1)`:
the multi-column unique id. -/
def add_unique_id (df : DF) (bys : List String) : DF :=
  df.setCol "unique_id" (fun r => Value.str (pyJoin "/" (bys.map (fun c => (rget r c).toStr))))

/-- The rename dictionary `{target: "y", order_by: "ds", group_col:
"unique_id"}` as a function (later duplicate keys win, hence the
`group_col` > `order_by` > `target` precedence). -/
def renameMap (group_col order_by target : String) (c : String) : String :=
  if c = group_col then "unique_id"
  else if c = order_by then "ds"
  else if c = target then "y"
  else c

/-- `transform_to_nixtla_df(df, settings_dict, exog_vars)`.  `none` models
the raised exceptions: `KeyError` on missing columns and the `IndexError` of
`settings_dict["group_by"][0]` when `group_by` is the empty list. -/
def transform_to_nixtla_df (toDT : Value → Value) (rs : Resampler)
    (df : DF) (s : Settings) (exog_vars : List String) : Option DF := do
  let df1 ←
    if s.group_by ≠ [] ∧ s.group_by ≠ ["__group_by"] then resample_step toDT rs df s
    else some df
  let step2 ←
    if 1 < s.group_by.length then
      some (add_unique_id (astype_str_cols df1 s.group_by) s.group_by, "ignore this")
    else
      match s.group_by with
      | [] => none
      | g :: _ => some (df1, g)
  let df3 := step2.1.renameWith (renameMap step2.2 s.order_by s.target)
  let df4 :=
    if "unique_id" ∈ df3.cols then df3
    else df3.setCol "unique_id" (fun _ => Value.str "1")
  let df5 := df4.mapColVals "ds" toDT
  df5.select (["unique_id", "ds", "y"] ++ exog_vars)

/-! ## `get_results_from_nixtla_df` -/

/-- `Series.apply` over rows with a fallible element function: fails on the
first element whose computation raises (Python evaluates left to right). -/
def optMapM {α β : Type} (f : α → Option β) : List α → Option (List β)
  | [] => some []
  | a :: l => do
    let b ← f a
    let bs ← optMapM f l
    some (b :: bs)

/-- One pass of `return_df[group] = return_df["unique_id"].apply(lambda x:
x.split("/")[i])`: `none` models the `AttributeError` on a non-string
unique id and the `IndexError` when the split has at most `i` parts. -/
def splitCol (df : DF) (i : Nat) (g : String) : Option DF := do
  let newRows ← optMapM (fun r =>
    match rget r "unique_id" with
    | Value.str u =>
      match (pySplit '/' u).get? i with
      | some part => some (rowSet r g (Value.str part))
      | none => none
    | _ => none) df.rows
  some { cols := if df.cols.contains g then df.cols else df.cols ++ [g], rows := newRows }

/-- `get_results_from_nixtla_df(nixtla_df, model_args)`.  The embedding
covers frames carrying `unique_id` as a column (the shape produced by
`transform_to_nixtla_df`), for which `reset_index(drop=True)` is the
identity; a missing `unique_id` column is `none` (Python raises `KeyError`
at the `apply`/`drop` calls). -/
def get_results_from_nixtla_df (df : DF) (s : Settings) : Option DF := do
  if "unique_id" ∈ df.cols then
    let df1 ←
      if 0 < s.group_by.length then
        if 1 < s.group_by.length then
          s.group_by.enum.foldlM (fun d p => splitCol d p.1 p.2) df
        else
          match s.group_by with
          | [] => none
          | g :: _ => some (df.setCol g (fun r => rget r "unique_id"))
      else some df
    some ((df1.dropCol "unique_id").renameWith (fun c => if c = "ds" then s.order_by else c))
  else none

/-! ## `infer_frequency` -/

/-- The pandas/numpy collaborators `infer_frequency` calls, each able to
raise (`Except.error`): element-wise `pd.to_datetime` (yielding `datetime64`
ticks), `pd.infer_freq` (categorical inference, `none` = Python `None`), and
`to_offset(pd.to_timedelta(delta)).freqstr`. -/
structure FreqCollab where
  toDT : Value → Except PyErr Int
  inferFreq : List Int → Except PyErr (Option String)
  freqstr : Int → Except PyErr String

/-- `df.sort_values(by=tc)[tc]`: stable sort of the column with missing
values placed last; comparing values of different kinds raises `TypeError`
(Python's cross-type comparison), modelled per column kind. -/
def sortSeries (vs : List Value) : Except PyErr (List Value) :=
  let present := vs.filter (fun v => !(v == Value.nan))
  let nans := vs.filter (fun v => v == Value.nan)
  if present.all (fun v => match v with | Value.num _ => true | _ => false) then
    Except.ok (insertionSort
      (fun a b => match a, b with | Value.num x, Value.num y => x < y | _, _ => false) present ++ nans)
  else if present.all (fun v => match v with | Value.time _ => true | _ => false) then
    Except.ok (insertionSort
      (fun a b => match a, b with | Value.time x, Value.time y => x < y | _, _ => false) present ++ nans)
  else if present.all (fun v => match v with | Value.str _ => true | _ => false) then
    Except.ok (insertionSort
      (fun a b => match a, b with | Value.str x, Value.str y => x < y | _, _ => false) present ++ nans)
  else Except.error PyErr.typeErr

/-- The `try:` block of `infer_frequency`: sort by the time column, convert
to datetimes, deduplicate, attempt categorical inference, and otherwise take
the statistical mode of the successive deltas as a period string.
`np.argmax` of an empty delta array raises (a non-type error). -/
def infer_frequency_body (C : FreqCollab) (df : DF) (time_column : String) :
    Except PyErr (Option String) := do
  let sorted ← sortSeries (colVals df time_column)
  let dates ← sorted.mapM C.toDT
  let date_series := firstDedup dates
  let inferred ← C.inferFreq date_series
  match inferred with
  | some f => pure (some f)
  | none =>
    let diffs := listDiffs date_series
    if diffs = [] then Except.error PyErr.otherErr
    else do
      let fs ← C.freqstr (modeDelta diffs)
      pure (some fs)

/-- `infer_frequency(df, time_column, default)`: `except TypeError` swallows
exactly the type errors of the body (other exceptions propagate), and a
`None` outcome falls back to the default. -/
def infer_frequency (C : FreqCollab) (df : DF) (time_column : String) (default : String) :
    Except PyErr String :=
  match infer_frequency_body C df time_column with
  | Except.ok f? => Except.ok (f?.getD default)
  | Except.error PyErr.typeErr => Except.ok default
  | Except.error e => Except.error e

/-! ## Accuracy scoring -/

/-- A caller-supplied metric `(actual_sequence, predicted_sequence) ->
number` (the module's default is `sklearn.metrics.r2_score`). -/
abbrev Metric := List Value → List Value → ℚ

/-- Python `dict` insertion: overwrite in place on an existing key, else
append. -/
def dictInsert (d : List (String × ℚ)) (k : String) (v : ℚ) : List (String × ℚ) :=
  if d.any (fun p => p.1 == k) then
    d.map (fun p => if p.1 == k then (k, v) else p)
  else d ++ [(k, v)]

/-- `get_model_accuracy_dict(nixtla_results_df, metric)`: one score per
non-reserved column, in column order (Python dicts iterate in insertion
order). -/
def get_model_accuracy_dict (df : DF) (metric : Metric) : List (String × ℚ) :=
  df.cols.foldl (fun accuracy_dict column =>
    if column ∈ ["unique_id", "ds", "y", "cutoff"] then accuracy_dict
    else dictInsert accuracy_dict column (metric (colVals df "y") (colVals df column)))
    []

/-- One step of the best-model scan: replace the incumbent only on a
strictly greater score. -/
def bestStep (acc : Option String × ℚ) (p : String × ℚ) : Option String × ℚ :=
  if acc.2 < p.2 then (some p.1, p.2) else acc

/-- `get_best_model_from_results_df(nixtla_results_df, metric)`: scan the
accuracy dict from the `(None, 0)` baseline. -/
def get_best_model_from_results_df (df : DF) (metric : Metric) : Option String :=
  ((get_model_accuracy_dict df metric).foldl bestStep (none, 0)).1

/-! ## Hierarchy and reconciliation -/

/-- A dataframe with string row labels (the reconciled frame and the
summation matrix `S` are indexed by series id). -/
structure IndexedDF where
  cols : List String
  rows : List (String × Row)
  deriving DecidableEq, Repr

/-- `reconciled_df.drop(col, axis=1)`. -/
def IndexedDF.dropCol (df : IndexedDF) (c : String) : IndexedDF :=
  { cols := df.cols.filter (fun x => !(x == c)),
    rows := df.rows.map (fun p => (p.1, p.2.filter (fun q => !(q.1 == c)))) }

/-- `get_results_from_reconciled_df(reconciled_df, hierarchy_df)`: drop the
first column outside `["ds", "y"]` whose name does not contain `"BottomUp"`
(the un-reconciled raw forecast), keep only rows indexed by the matrix's
column names (the lowest-level series), and apply
`.str.replace("total/", "")` to the remaining row labels.
`Except.error .unboundLocalErr` models the `UnboundLocalError` raised when
no column is ever dropped, since `results_df` is only assigned inside the
loop's `break` branch. -/
def get_results_from_reconciled_df (reconciled_df hierarchy_df : IndexedDF) :
    Except PyErr IndexedDF :=
  match reconciled_df.cols.find?
      (fun col => !(col ∈ ["ds", "y"] : Bool) && !containsSub "BottomUp".data col.data) with
  | none => Except.error PyErr.unboundLocalErr
  | some col =>
    let results_df := reconciled_df.dropCol col
    let lowest_level_ids := hierarchy_df.cols
    let results_df :=
      { results_df with rows := results_df.rows.filter (fun p => lowest_level_ids.contains p.1) }
    Except.ok
      { results_df with rows := results_df.rows.map (fun p => (pyReplace "total/" "" p.1, p.2)) }

/-- The optional `hierarchicalforecast` library: `aggregate` and
`HierarchicalReconciliation(reconcilers=[BottomUp()]).reconcile`, the two
external entry points the module calls.  The module-level
`HierarchicalReconciliation = BottomUp = aggregate = None` fallback of the
failed import is `Option.none` at this type. -/
structure HierLib where
  aggregate : DF → List (List String) →
    Except PyErr (DF × IndexedDF × List (String × List String))
  reconcile : (Y_hat_df : DF) → (Y_df : DF) → (S : IndexedDF) →
    (tags : List (String × List String)) → Except PyErr IndexedDF

/-- The warning logged by `get_hierarchy_from_df` without the library. -/
def hierarchyWarning : String :=
  "HierarchicalForecast is not installed, but `get_hierarchy_from_df` has been called. This should never happen."

/-- The warning logged by `reconcile_forecasts` without the library. -/
def reconcileWarning : String :=
  "HierarchicalForecast is not installed, but `reconcile_forecasts` has been called. This should never happen."

/-- `get_hierarchy_from_df(df, model_args)`: returns the function's result
(`ok none` = Python's implicit `None` return) paired with the list of
warnings logged during the call. -/
def get_hierarchy_from_df (lib : Option HierLib) (toDT : Value → Value)
    (df : DF) (model_args : Settings) :
    Except PyErr (Option (DF × IndexedDF × List (String × List String))) × List String :=
  match lib with
  | some l =>
    ((do
      let spec := spec_hierarchy_from_list model_args.hierarchy
      let nixtla_df := df.renameWith (fun c =>
        if c = model_args.target then "y"
        else if c = model_args.order_by then "ds" else c)
      let nixtla_df := nixtla_df.mapColVals "ds" toDT
      let nixtla_df := astype_str_cols nixtla_df model_args.group_by
      let nixtla_df := nixtla_df.insertFront "Total" (Value.str "total")
      let r ← l.aggregate nixtla_df spec
      pure (some r)), [])
  | none => (Except.ok none, [hierarchyWarning])

/-- `reconcile_forecasts(nixtla_df, forecast_df, hierarchy_df,
hierarchy_dict)`, with the logged warnings alongside the result. -/
def reconcile_forecasts (lib : Option HierLib) (nixtla_df forecast_df : DF)
    (hierarchy_df : IndexedDF) (hierarchy_dict : List (String × List String)) :
    Except PyErr (Option IndexedDF) × List String :=
  match lib with
  | some l =>
    ((do
      let reconciled_df ← l.reconcile forecast_df nixtla_df hierarchy_df hierarchy_dict
      let r ← get_results_from_reconciled_df reconciled_df hierarchy_df
      pure (some r)), [])
  | none => (Except.ok none, [reconcileWarning])

/-! ## Spec-side reference definitions and statement helpers -/

/-- Modelled from the spec: claim C2's words "strips the `\"total/\"` prefix
from remaining identifiers" — remove one leading `"total/"` marker if the
identifier starts with it, and only there.  Compared against the code's
`pyReplace "total/" ""` (which replaces every occurrence). -/
def specStripTotalRoot (s : String) : String :=
  if isPre "total/".data s.data then String.mk (s.data.drop "total/".length) else s

/-- The grouping-column value tuples of a frame, stringified (the round-trip
claim compares values up to dtype, i.e. up to their string rendering). -/
def tupleStrs (df : DF) (bys : List String) : List (List String) :=
  df.rows.map (fun r => bys.map (fun c => (rget r c).toStr))

/-- The round trip of claim C1: normalize, then convert back with the same
configuration. -/
def roundTrip (toDT : Value → Value) (rs : Resampler)
    (df : DF) (s : Settings) (exog_vars : List String) : Option DF := do
  let nixtla_df ← transform_to_nixtla_df toDT rs df s exog_vars
  get_results_from_nixtla_df nixtla_df s

/-- The value `return_df["unique_id"].apply(lambda x: x.split("/")[i])`
assigns in one row (total rendering of the member accesses; `splitCol` keeps
the partiality). -/
def splitVal (r : Row) (i : Nat) : Value :=
  Value.str ((pySplit '/' ((rget r "unique_id").toStr)).getD i "")

/-- The row-level effect of casting the columns `cs` to string
(`astype(str)` over every grouping column at once). -/
def rowAstype (cs : List String) (r : Row) : Row :=
  r.map (fun p => if p.1 ∈ cs then (p.1, Value.str p.2.toStr) else p)

/-! ## Concrete inputs used by witnesses and counterexamples -/

/-- Identity `pd.to_datetime` (on already-`datetime64` data). -/
def idDT : Value → Value := fun v => v

/-- The identity resampler: what `resample(freq).mean()` does to a series
already sampled exactly at `freq` with no gaps. -/
def idResample : Resampler := fun _ ser => ser

/-- A wide table with two grouping columns, one of whose values contains the
`"/"` delimiter. -/
def dfSlash : DF :=
  { cols := ["g1", "g2", "tm", "tg"],
    rows := [[("g1", Value.str "a/b"), ("g2", Value.str "c"),
              ("tm", Value.time 0), ("tg", Value.num 5)]] }

/-- Settings grouping by `g1, g2`, ordering by `tm`, targeting `tg`. -/
def sSlash : Settings :=
  { frequency := "D", group_by := ["g1", "g2"], order_by := "tm", target := "tg",
    hierarchy := [] }

/-- A well-formed wide table with two grouping columns (no `"/"` in any
grouping value). -/
def dfRT : DF :=
  { cols := ["g1", "g2", "tm", "tg"],
    rows := [[("g1", Value.str "a"), ("g2", Value.str "c"),
              ("tm", Value.time 0), ("tg", Value.num 5)],
             [("g1", Value.str "b"), ("g2", Value.str "c"),
              ("tm", Value.time 1), ("tg", Value.num 6)]] }

/-- Settings with the empty `group_by` list (the literal "no grouping"). -/
def sEmptyGB : Settings :=
  { frequency := "D", group_by := [], order_by := "tm", target := "tg", hierarchy := [] }

/-- Settings with the `['__group_by']` sentinel (how the caller encodes "no
grouping"). -/
def sSentinel : Settings :=
  { frequency := "D", group_by := ["__group_by"], order_by := "tm", target := "tg",
    hierarchy := [] }

/-- Decidable equality for modelled Python call results (used only to
evaluate concrete instances by `decide`). -/
instance {ε α : Type} [DecidableEq ε] [DecidableEq α] : DecidableEq (Except ε α) := fun a b =>
  match a, b with
  | Except.ok x, Except.ok y =>
    if h : x = y then Decidable.isTrue (by rw [h])
    else Decidable.isFalse (by intro hc; cases hc; exact h rfl)
  | Except.error x, Except.error y =>
    if h : x = y then Decidable.isTrue (by rw [h])
    else Decidable.isFalse (by intro hc; cases hc; exact h rfl)
  | Except.ok _, Except.error _ => Decidable.isFalse (by intro hc; cases hc)
  | Except.error _, Except.ok _ => Decidable.isFalse (by intro hc; cases hc)

/-- `0.8`, written so it evaluates by kernel reduction. -/
def q08 : ℚ := ⟨4, 5, by decide, by decide⟩

/-- `0.95`, written so it evaluates by kernel reduction. -/
def q095 : ℚ := ⟨19, 20, by decide, by decide⟩

/-- `-0.2`, written so it evaluates by kernel reduction. -/
def qm02 : ℚ := ⟨-1, 5, by decide, by decide⟩

/-- A metric reading its score off the first predicted value (a stand-in for
a caller-supplied scoring function, used to realise given score tables). -/
def exampleMetric : Metric := fun _ pred =>
  match pred.head? with
  | some (Value.num q) => q
  | _ => 0

/-- Results frame realising the score table `{"m1": 0.8, "m2": 0.95}` under
`exampleMetric`. -/
def dfAcc1 : DF :=
  { cols := ["unique_id", "ds", "y", "m1", "m2"],
    rows := [[("unique_id", Value.str "1"), ("ds", Value.time 0), ("y", Value.num 1),
              ("m1", Value.num q08), ("m2", Value.num q095)]] }

/-- Results frame realising the score table `{"m1": -0.2}` under
`exampleMetric`. -/
def dfAcc2 : DF :=
  { cols := ["unique_id", "ds", "y", "m1"],
    rows := [[("unique_id", Value.str "1"), ("ds", Value.time 0), ("y", Value.num 1),
              ("m1", Value.num qm02)]] }

/-- Collaborators over daily data: `pd.to_datetime` is the identity on
ticks, `pd.infer_freq` finds no regular frequency (the gapped series), and
`to_offset(pd.to_timedelta(1 day)).freqstr` is `"D"`. -/
def CdailyEx : FreqCollab :=
  { toDT := fun v => match v with
      | Value.time t => Except.ok t
      | _ => Except.error PyErr.typeErr,
    inferFreq := fun _ => Except.ok none,
    freqstr := fun d => if d = 1 then Except.ok "D" else Except.error PyErr.otherErr }

/-- Daily timestamps with one gap (day 3 missing), one duplicate. -/
def dfDaily : DF :=
  { cols := ["tm"],
    rows := [[("tm", Value.time 0)], [("tm", Value.time 1)], [("tm", Value.time 1)],
             [("tm", Value.time 2)], [("tm", Value.time 4)]] }

/-- A non-timestamp time column: `pd.to_datetime` raises `TypeError`. -/
def dfStrCol : DF :=
  { cols := ["tm"], rows := [[("tm", Value.str "hello")]] }

/-- The reconciled frame of claim C2's example: columns
`[ds, y, m1, m1/BottomUp]`; rows for the total, an intermediate aggregate,
and the leaves `a`, `b`. -/
def rdfEx : IndexedDF :=
  { cols := ["ds", "y", "m1", "m1/BottomUp"],
    rows := [("total", [("ds", Value.time 0), ("y", Value.num 1),
                        ("m1", Value.num 10), ("m1/BottomUp", Value.num 11)]),
             ("mid", [("ds", Value.time 0), ("y", Value.num 2),
                      ("m1", Value.num 20), ("m1/BottomUp", Value.num 21)]),
             ("a", [("ds", Value.time 0), ("y", Value.num 3),
                    ("m1", Value.num 30), ("m1/BottomUp", Value.num 31)]),
             ("b", [("ds", Value.time 0), ("y", Value.num 4),
                    ("m1", Value.num 40), ("m1/BottomUp", Value.num 41)])] }

/-- The hierarchy matrix of claim C2's example, with leaf columns
`["a", "b"]`. -/
def hdfEx : IndexedDF :=
  { cols := ["a", "b"],
    rows := [("total", [("a", Value.num 1), ("b", Value.num 1)]),
             ("a", [("a", Value.num 1), ("b", Value.num 0)]),
             ("b", [("a", Value.num 0), ("b", Value.num 1)])] }

/-- A reconciled frame whose single kept row label contains `"total/"` twice
(a grouping value literally named `total`). -/
def rdfTwice : IndexedDF :=
  { cols := ["ds", "y", "m1", "m1/BottomUp"],
    rows := [("total/total/x", [("ds", Value.time 0), ("y", Value.num 1),
                                ("m1", Value.num 2), ("m1/BottomUp", Value.num 3)])] }

/-- Matrix whose leaf column is that doubled label. -/
def hdfTwice : IndexedDF :=
  { cols := ["total/total/x"], rows := [] }

/-- A reconciled frame in which every model column carries the `BottomUp`
marker (so no column is ever dropped). -/
def rdfAllMarked : IndexedDF :=
  { cols := ["ds", "y", "m1/BottomUp"],
    rows := [("total", [("ds", Value.time 0), ("y", Value.num 1),
                        ("m1/BottomUp", Value.num 2)])] }

/-! # Helper lemmas -/

/-- A successful `find?` yields the first satisfying element: everything
before it fails the predicate. -/
theorem find?_some_split {α : Type} (p : α → Bool) :
    ∀ (l : List α) (a : α), l.find? p = some a →
      p a = true ∧ ∃ l1 l2, l = l1 ++ a :: l2 ∧ ∀ x ∈ l1, p x = false := by
  intro l
  induction l with
  | nil => intro a h; simp at h
  | cons b l' ih =>
    intro a h
    cases hpb : p b with
    | true =>
      rw [List.find?_cons_of_pos _ hpb] at h
      obtain rfl : b = a := by injection h
      exact ⟨hpb, [], l', rfl, by intro x hx; simp at hx⟩
    | false =>
      rw [List.find?_cons_of_neg _ (by simp [hpb])] at h
      obtain ⟨hpa, l1, l2, heq, hall⟩ := ih a h
      refine ⟨hpa, b :: l1, l2, by rw [heq]; rfl, ?_⟩
      intro x hx
      rcases List.mem_cons.mp hx with rfl | hx'
      · exact hpb
      · exact hall x hx'

/-- Index projection through a pair-wise map. -/
theorem mapFst_filter (q : String → Bool) (l : List (String × Row)) :
    (l.filter (fun p => q p.1)).map Prod.fst = (l.map Prod.fst).filter q := by
  induction l with
  | nil => rfl
  | cons p l' ih =>
    cases hq : q p.1 with
    | true => simp [List.filter_cons, hq, ih]
    | false => simp [List.filter_cons, hq, ih]

/-! # Claim theorems -/

/-- **C4.** `spec_hierarchy_from_list` returns the cumulative path list
`[["Total"], ["Total", L1], ..., ["Total", L1..Ln]]`, root first; on the
empty list it returns `[["Total"]]`; and each entry extends the previous by
exactly one grouping column. -/
theorem claim_C4 (levels : List String) :
    spec_hierarchy_from_list [] = [["Total"]]
    ∧ spec_hierarchy_from_list levels
        = (List.range (levels.length + 1)).map (fun i => "Total" :: levels.take i)
    ∧ ∀ i : Nat, i + 1 < (spec_hierarchy_from_list levels).length →
        (spec_hierarchy_from_list levels).getD (i + 1) []
          = (spec_hierarchy_from_list levels).getD i [] ++ [levels.getD i ""] := by
  have hform : spec_hierarchy_from_list levels
      = (List.range (levels.length + 1)).map (fun i => "Total" :: levels.take i) := by
    rw [List.range_succ_eq_map]
    simp only [spec_hierarchy_from_list, List.map_cons, List.take_zero, List.map_map]
    rfl
  refine ⟨rfl, hform, ?_⟩
  intro i hi
  rw [hform] at hi ⊢
  rw [List.length_map, List.length_range] at hi
  have hi' : i < levels.length + 1 := Nat.lt_of_succ_lt hi
  have hil : i < levels.length := Nat.lt_of_succ_lt_succ hi
  have hget : ∀ j, j < levels.length + 1 →
      ((List.range (levels.length + 1)).map (fun i => "Total" :: levels.take i)).getD j []
        = "Total" :: levels.take j := by
    intro j hj
    rw [List.getD_eq_getElem?_getD, List.getElem?_map, List.getElem?_range hj]
    rfl
  rw [hget _ hi, hget _ hi']
  have : levels.take (i + 1) = levels.take i ++ [levels.getD i ""] := by
    rw [List.take_succ]
    congr 1
    rw [List.getD_eq_getElem?_getD, List.getElem?_eq_getElem hil]
    rfl
  rw [this]
  rfl

/-- **C4 witness:** the theorem at `["region", "store"]` and `[]`. -/
theorem claim_C4_witness :
    spec_hierarchy_from_list [] = [["Total"]]
    ∧ (spec_hierarchy_from_list ["region", "store"]).getD 2 []
        = (spec_hierarchy_from_list ["region", "store"]).getD 1 []
          ++ [["region", "store"].getD 1 ""] :=
  ⟨(claim_C4 []).1, (claim_C4 ["region", "store"]).2.2 1 (by decide)⟩

/-- **C9.** With the optional hierarchical-forecast library absent, both
`get_hierarchy_from_df` and `reconcile_forecasts` raise no exception: each
returns Python `None` and logs exactly one warning, for every input. -/
theorem claim_C9 (toDT : Value → Value) (df : DF) (args : Settings)
    (ndf fdf : DF) (hdf : IndexedDF) (hdict : List (String × List String)) :
    get_hierarchy_from_df none toDT df args = (Except.ok none, [hierarchyWarning])
    ∧ reconcile_forecasts none ndf fdf hdf hdict = (Except.ok none, [reconcileWarning]) :=
  ⟨rfl, rfl⟩

/-- **C10.** If every column of the reconciled frame other than `ds` and `y`
contains the `"BottomUp"` marker (in particular if there are no other
columns), `get_results_from_reconciled_df` raises an unbound-variable error:
`results_df` is only assigned inside the branch that drops a column. -/
theorem claim_C10 (rdf hdf : IndexedDF)
    (h : ∀ c ∈ rdf.cols, c = "ds" ∨ c = "y" ∨ containsSub "BottomUp".data c.data = true) :
    get_results_from_reconciled_df rdf hdf = Except.error PyErr.unboundLocalErr := by
  have hnone : rdf.cols.find?
      (fun col => !(col ∈ (["ds", "y"] : List String) : Bool)
        && !containsSub "BottomUp".data col.data) = none := by
    rw [List.find?_eq_none]
    intro c hc
    rcases h c hc with rfl | rfl | hbu
    · simp
    · simp
    · simp [hbu]
  simp only [get_results_from_reconciled_df, hnone]

/-- **C10 witness:** the frame `[ds, y, m1/BottomUp]`. -/
theorem claim_C10_witness :
    get_results_from_reconciled_df rdfAllMarked hdfEx = Except.error PyErr.unboundLocalErr :=
  claim_C10 rdfAllMarked hdfEx (by decide)

/-- **C6.** `infer_frequency` never lets a type error escape: whatever the
collaborators do, the result is never a raised `TypeError`, and whenever the
inference body raises a `TypeError` the caller-supplied default is
returned. -/
theorem claim_C6 (C : FreqCollab) (df : DF) (tc default : String) :
    infer_frequency C df tc default ≠ Except.error PyErr.typeErr
    ∧ (infer_frequency_body C df tc = Except.error PyErr.typeErr →
        infer_frequency C df tc default = Except.ok default) := by
  constructor
  · intro hc
    unfold infer_frequency at hc
    cases hbody : infer_frequency_body C df tc with
    | ok f? => rw [hbody] at hc; simp at hc
    | error e => rw [hbody] at hc; cases e <;> simp_all
  · intro hb
    unfold infer_frequency
    rw [hb]

/-- **C6 witness:** a non-timestamp column makes `pd.to_datetime` raise
`TypeError`, and the default `"QQ"` is returned. -/
theorem claim_C6_witness :
    infer_frequency CdailyEx dfStrCol "tm" "QQ" = Except.ok "QQ" :=
  (claim_C6 CdailyEx dfStrCol "tm" "QQ").2 (by decide)

/-- If nothing in the remaining list beats the running best, the best-model
scan leaves its accumulator unchanged. -/
theorem bestFold_le :
    ∀ (l : List (String × ℚ)) (b : Option String) (cur : ℚ),
      (∀ p ∈ l, p.2 ≤ cur) → l.foldl bestStep (b, cur) = (b, cur) := by
  intro l
  induction l with
  | nil => intro b cur _; rfl
  | cons q l' ih =>
    intro b cur h
    have hq : q.2 ≤ cur := h q (List.mem_cons_self _ _)
    simp only [List.foldl_cons, bestStep]
    rw [if_neg (not_lt.mpr hq)]
    exact ih b cur (fun p hp => h p (List.mem_cons_of_mem _ hp))

/-- If something in the list beats the running best, the scan settles on the
first entry carrying the maximal score: everything before it scores strictly
lower, everything after at most as much. -/
theorem bestFold_pos :
    ∀ (l : List (String × ℚ)) (b : Option String) (cur : ℚ),
      (∃ p ∈ l, cur < p.2) →
      ∃ l1 m a l2, l = l1 ++ (m, a) :: l2 ∧ cur < a ∧ (∀ p ∈ l1, p.2 < a)
        ∧ (∀ p ∈ l2, p.2 ≤ a) ∧ l.foldl bestStep (b, cur) = (some m, a) := by
  intro l
  induction l with
  | nil => rintro b cur ⟨p, hp, _⟩; simp at hp
  | cons q l' ih =>
    intro b cur hex
    by_cases hq : cur < q.2
    · by_cases hrest : ∃ p ∈ l', q.2 < p.2
      · obtain ⟨l1, m, a, l2, heq, ha, h1, h2, hf⟩ := ih q.1 q.2 hrest
        refine ⟨q :: l1, m, a, l2, by rw [heq, List.cons_append], lt_trans hq ha, ?_, h2, ?_⟩
        · intro p hp
          rcases List.mem_cons.mp hp with rfl | hp'
          · exact ha
          · exact h1 p hp'
        · simp only [List.foldl_cons, bestStep]
          rw [if_pos hq]
          exact hf
      · push_neg at hrest
        have hrest' : ∀ p ∈ l', p.2 ≤ q.2 := fun p hp => hrest p hp
        refine ⟨[], q.1, q.2, l', rfl, hq, by intro p hp; simp at hp, hrest', ?_⟩
        simp only [List.foldl_cons, bestStep]
        rw [if_pos hq]
        exact bestFold_le l' (some q.1) q.2 hrest'
    · have hex' : ∃ p ∈ l', cur < p.2 := by
        obtain ⟨p, hp, hpc⟩ := hex
        rcases List.mem_cons.mp hp with rfl | hp'
        · exact absurd hpc hq
        · exact ⟨p, hp', hpc⟩
      obtain ⟨l1, m, a, l2, heq, ha, h1, h2, hf⟩ := ih b cur hex'
      refine ⟨q :: l1, m, a, l2, by rw [heq, List.cons_append], ha, ?_, h2, ?_⟩
      · intro p hp
        rcases List.mem_cons.mp hp with rfl | hp'
        · exact lt_of_le_of_lt (not_lt.mp hq) ha
        · exact h1 p hp'
      · simp only [List.foldl_cons, bestStep]
        rw [if_neg hq]
        exact hf

/-- **C5.** `get_best_model_from_results_df` returns the model with the
highest score among those strictly above the `0` baseline, keeping the first
encountered on ties (later entries must score strictly higher to replace
it); it returns `None` exactly when every score is `≤ 0`. -/
theorem claim_C5 (df : DF) (metric : Metric) :
    (get_best_model_from_results_df df metric = none ↔
      ∀ p ∈ get_model_accuracy_dict df metric, p.2 ≤ 0)
    ∧ ∀ m, get_best_model_from_results_df df metric = some m →
        ∃ l1 a l2, get_model_accuracy_dict df metric = l1 ++ (m, a) :: l2
          ∧ 0 < a ∧ (∀ p ∈ l1, p.2 < a) ∧ ∀ p ∈ l2, p.2 ≤ a := by
  constructor
  · constructor
    · intro hnone
      by_contra hall
      push_neg at hall
      obtain ⟨p, hp, hpc⟩ := hall
      obtain ⟨l1, m, a, l2, _, _, _, _, hf⟩ :=
        bestFold_pos (get_model_accuracy_dict df metric) none 0 ⟨p, hp, hpc⟩
      unfold get_best_model_from_results_df at hnone
      rw [hf] at hnone
      simp at hnone
    · intro hall
      unfold get_best_model_from_results_df
      rw [bestFold_le _ none 0 hall]
  · intro m hm
    by_cases hex : ∃ p ∈ get_model_accuracy_dict df metric, (0 : ℚ) < p.2
    · obtain ⟨l1, m', a, l2, heq, ha, h1, h2, hf⟩ :=
        bestFold_pos (get_model_accuracy_dict df metric) none 0 hex
      have hm' : m' = m := by
        unfold get_best_model_from_results_df at hm
        rw [hf] at hm
        injection hm
      exact ⟨l1, a, l2, hm' ▸ heq, ha, h1, h2⟩
    · push_neg at hex
      have : get_best_model_from_results_df df metric = none := by
        unfold get_best_model_from_results_df
        rw [bestFold_le _ none 0 (fun p hp => hex p hp)]
      rw [this] at hm
      simp at hm

/-- **C5 witness:** over `{"m1": -0.2}` no model beats the baseline and the
result is `None`; over `{"m1": 0.8, "m2": 0.95}` the chosen model `m2` is
the first maximal-score entry. -/
theorem claim_C5_witness :
    get_best_model_from_results_df dfAcc2 exampleMetric = none
    ∧ ∃ l1 a l2, get_model_accuracy_dict dfAcc1 exampleMetric = l1 ++ ("m2", a) :: l2
        ∧ 0 < a ∧ (∀ p ∈ l1, p.2 < a) ∧ ∀ p ∈ l2, p.2 ≤ a :=
  ⟨(claim_C5 dfAcc2 exampleMetric).1.mpr (by decide),
   (claim_C5 dfAcc1 exampleMetric).2 "m2" (by decide)⟩

/-- With distinct pending columns that are disjoint from the keys already
accumulated, the accuracy fold appends one entry per non-reserved column. -/
theorem accFold (df : DF) (metric : Metric) :
    ∀ (cs : List String) (acc : List (String × ℚ)),
      cs.Nodup → (∀ p ∈ acc, p.1 ∉ cs) →
      cs.foldl (fun accuracy_dict column =>
          if column ∈ ["unique_id", "ds", "y", "cutoff"] then accuracy_dict
          else dictInsert accuracy_dict column (metric (colVals df "y") (colVals df column)))
        acc
        = acc ++ (cs.filter
            (fun c => !(c ∈ (["unique_id", "ds", "y", "cutoff"] : List String) : Bool))).map
            (fun c => (c, metric (colVals df "y") (colVals df c))) := by
  intro cs
  induction cs with
  | nil => intro acc _ _; simp
  | cons c cs' ih =>
    intro acc hnd hdisj
    have hc_not : c ∉ cs' := (List.nodup_cons.mp hnd).1
    have hnd' : cs'.Nodup := (List.nodup_cons.mp hnd).2
    by_cases hres : c ∈ (["unique_id", "ds", "y", "cutoff"] : List String)
    · rw [List.foldl_cons, if_pos hres, List.filter_cons_of_neg (by simp [hres])]
      exact ih acc hnd' (fun p hp => fun hmem => hdisj p hp (List.mem_cons_of_mem _ hmem))
    · have hnotany : ¬(acc.any (fun p => p.1 == c) = true) := by
        intro hany
        obtain ⟨p, hp, hpc⟩ := List.any_eq_true.mp hany
        rw [beq_iff_eq] at hpc
        exact hdisj p hp (hpc ▸ List.mem_cons_self c cs')
      have hins : dictInsert acc c (metric (colVals df "y") (colVals df c))
          = acc ++ [(c, metric (colVals df "y") (colVals df c))] := by
        unfold dictInsert
        rw [if_neg hnotany]
      have hdisj' : ∀ p ∈ acc ++ [(c, metric (colVals df "y") (colVals df c))], p.1 ∉ cs' := by
        intro p hp
        rcases List.mem_append.mp hp with hpa | hpc
        · exact fun hmem => hdisj p hpa (List.mem_cons_of_mem _ hmem)
        · have hpe : p = (c, metric (colVals df "y") (colVals df c)) := by simpa using hpc
          subst hpe
          exact hc_not
      rw [List.foldl_cons, if_neg hres, hins, List.filter_cons_of_pos (by simp [hres]),
        ih (acc ++ [(c, metric (colVals df "y") (colVals df c))]) hnd' hdisj', List.map_cons,
        List.append_cons, List.append_assoc]
      simp

/-- **C8.** `get_model_accuracy_dict` maps exactly the non-reserved columns
(everything except `unique_id, ds, y, cutoff`, in column order) and scores
each model column by `metric(actual_y, model_column)`. -/
theorem claim_C8 (df : DF) (metric : Metric) (hnd : df.cols.Nodup) :
    (get_model_accuracy_dict df metric).map Prod.fst
        = df.cols.filter
            (fun c => !(c ∈ (["unique_id", "ds", "y", "cutoff"] : List String) : Bool))
    ∧ ∀ c ∈ df.cols, c ∉ (["unique_id", "ds", "y", "cutoff"] : List String) →
        (c, metric (colVals df "y") (colVals df c)) ∈ get_model_accuracy_dict df metric := by
  have hform : get_model_accuracy_dict df metric
      = (df.cols.filter
          (fun c => !(c ∈ (["unique_id", "ds", "y", "cutoff"] : List String) : Bool))).map
          (fun c => (c, metric (colVals df "y") (colVals df c))) := by
    unfold get_model_accuracy_dict
    rw [accFold df metric df.cols [] hnd (by intro p hp; simp at hp)]
    rfl
  have hid : ∀ l : List String,
      l.map (Prod.fst ∘ (fun c => (c, metric (colVals df "y") (colVals df c)))) = l := by
    intro l
    induction l with
    | nil => rfl
    | cons a l ihl => simp only [List.map_cons, ihl, Function.comp]
  constructor
  · rw [hform, List.map_map, hid]
  · intro c hc hcres
    rw [hform]
    exact List.mem_map.mpr ⟨c, List.mem_filter.mpr ⟨hc, by simp [hcres]⟩, rfl⟩

/-- **C8 witness:** the theorem at `dfAcc1`: keys `["m1", "m2"]`, and the
`m1` entry scores `metric` on the `y` and `m1` columns. -/
theorem claim_C8_witness :
    (get_model_accuracy_dict dfAcc1 exampleMetric).map Prod.fst = ["m1", "m2"]
    ∧ ("m1", exampleMetric (colVals dfAcc1 "y") (colVals dfAcc1 "m1"))
        ∈ get_model_accuracy_dict dfAcc1 exampleMetric := by
  have h := claim_C8 dfAcc1 exampleMetric (by decide)
  exact ⟨h.1.trans (by decide), h.2 "m1" (by decide) (by decide)⟩

/-- **C2 (amended).** When some column outside `["ds", "y"]` lacks the
`"BottomUp"` marker, `get_results_from_reconciled_df` removes exactly that
one column — the first such — keeps exactly the rows whose label is among
the matrix's leaf column names, and replaces every occurrence of the
substring `"total/"` in the remaining row labels (which strips the
`"total/"` prefix whenever that is the only occurrence). -/
theorem claim_C2 (rdf hdf : IndexedDF) (c0 : String)
    (hfind : rdf.cols.find?
        (fun col => !(col ∈ (["ds", "y"] : List String) : Bool)
          && !containsSub "BottomUp".data col.data) = some c0) :
    (get_results_from_reconciled_df rdf hdf).map IndexedDF.cols
        = Except.ok (rdf.cols.filter (fun x => !(x == c0)))
    ∧ (get_results_from_reconciled_df rdf hdf).map (fun o => o.rows.map Prod.fst)
        = Except.ok (((rdf.rows.map Prod.fst).filter (fun i => hdf.cols.contains i)).map
            (pyReplace "total/" ""))
    ∧ (c0 ∉ (["ds", "y"] : List String) ∧ containsSub "BottomUp".data c0.data = false)
    ∧ ∃ l1 l2, rdf.cols = l1 ++ c0 :: l2
        ∧ ∀ c ∈ l1, c ∈ (["ds", "y"] : List String)
            ∨ containsSub "BottomUp".data c.data = true := by
  obtain ⟨hp0, l1, l2, hsplit, hbefore⟩ := find?_some_split _ rdf.cols c0 hfind
  have hres : get_results_from_reconciled_df rdf hdf = Except.ok
      { cols := (rdf.dropCol c0).cols,
        rows := (((rdf.dropCol c0).rows.filter (fun p => hdf.cols.contains p.1)).map
          (fun p => (pyReplace "total/" "" p.1, p.2))) } := by
    simp only [get_results_from_reconciled_df, hfind]
  refine ⟨?_, ?_, ?_, l1, l2, hsplit, ?_⟩
  · rw [hres]
    rfl
  · rw [hres]
    simp only [Except.map, List.map_map]
    congr 1
    have h1 : ((rdf.dropCol c0).rows.filter (fun p => hdf.cols.contains p.1)).map
          ((fun p : String × Row => p.1) ∘ fun p : String × Row => (pyReplace "total/" "" p.1, p.2))
        = (((rdf.dropCol c0).rows.filter (fun p => hdf.cols.contains p.1)).map
            Prod.fst).map (pyReplace "total/" "") := by
      rw [List.map_map]
      rfl
    rw [h1, mapFst_filter]
    have h2 : (rdf.dropCol c0).rows.map Prod.fst = rdf.rows.map Prod.fst := by
      simp only [IndexedDF.dropCol, List.map_map]
      rfl
    rw [h2]
  · have := hp0
    simp only [Bool.and_eq_true, Bool.not_eq_true', decide_eq_false_iff_not] at this
    refine ⟨this.1, ?_⟩
    have h2 := this.2
    simpa using h2
  · intro c hc
    have hpc := hbefore c hc
    simp only [Bool.and_eq_false_iff, Bool.not_eq_false', decide_eq_true_eq] at hpc
    rcases hpc with h | h
    · exact Or.inl h
    · exact Or.inr (by simpa using h)

/-- **C2 witness:** the claim's example — columns `[ds, y, m1, m1/BottomUp]`
with leaf columns `["a", "b"]`: `m1` alone is dropped, only rows `a` and `b`
remain. -/
theorem claim_C2_witness :
    (get_results_from_reconciled_df rdfEx hdfEx).map IndexedDF.cols
        = Except.ok ["ds", "y", "m1/BottomUp"]
    ∧ (get_results_from_reconciled_df rdfEx hdfEx).map (fun o => o.rows.map Prod.fst)
        = Except.ok ["a", "b"] := by
  have h := claim_C2 rdfEx hdfEx "m1" (by decide)
  exact ⟨h.1.trans (by decide), h.2.1.trans (by decide)⟩

/-- **C2 counterexample:** on a row labelled `"total/total/x"` the code
removes *every* occurrence of `"total/"` and yields `"x"`, whereas the claim
("strips the `total/` prefix") demands `"total/x"`. -/
theorem claim_C2_counterexample :
    (get_results_from_reconciled_df rdfTwice hdfTwice).map (fun o => o.rows.map Prod.fst)
        = Except.ok ["x"]
    ∧ specStripTotalRoot "total/total/x" = "total/x"
    ∧ ("x" : String) ≠ "total/x" :=
  ⟨by decide, by decide, by decide⟩

/-- Insertion keeps exactly the old elements plus the new one. -/
theorem mem_insertSorted {α : Type} (lt : α → α → Bool) (x a : α) :
    ∀ l : List α, a ∈ insertSorted lt x l ↔ a = x ∨ a ∈ l := by
  intro l
  induction l with
  | nil => simp [insertSorted]
  | cons b l' ih =>
    unfold insertSorted
    by_cases hx : lt x b
    · rw [if_pos hx]
      simp [or_comm, or_left_comm]
    · rw [if_neg hx]
      simp only [List.mem_cons, ih]
      tauto

/-- Sorting keeps exactly the input elements. -/
theorem mem_insertionSort {α : Type} (lt : α → α → Bool) (a : α) :
    ∀ l : List α, a ∈ insertionSort lt l ↔ a ∈ l := by
  intro l
  induction l with
  | nil => simp [insertionSort]
  | cons b l' ih =>
    unfold insertionSort
    rw [mem_insertSorted]
    simp [ih]

/-- With enough fuel, first-occurrence deduplication keeps exactly the input
elements. -/
theorem mem_firstDedupAux {α : Type} [DecidableEq α] :
    ∀ (fuel : Nat) (l : List α), l.length ≤ fuel →
      ∀ a, a ∈ firstDedupAux fuel l ↔ a ∈ l := by
  intro fuel
  induction fuel with
  | zero =>
    intro l hl a
    rw [Nat.le_zero] at hl
    rw [List.length_eq_zero] at hl
    subst hl
    simp [firstDedupAux]
  | succ n ih =>
    intro l hl a
    cases l with
    | nil => simp [firstDedupAux]
    | cons b l' =>
      have hlen : (l'.filter (fun x => !(x == b))).length ≤ n := by
        calc (l'.filter (fun x => !(x == b))).length ≤ l'.length := List.length_filter_le _ _
        _ ≤ n := Nat.le_of_succ_le_succ hl
      simp only [firstDedupAux, List.mem_cons, ih _ hlen, List.mem_filter, Bool.not_eq_true',
        beq_eq_false_iff_ne, ne_eq]
      by_cases hab : a = b
      · subst hab; tauto
      · tauto

/-- `firstDedup` keeps exactly the input elements. -/
theorem mem_firstDedup {α : Type} [DecidableEq α] (l : List α) (a : α) :
    a ∈ firstDedup l ↔ a ∈ l :=
  mem_firstDedupAux l.length l (Nat.le_refl _) a

/-- The running scan of `np.argmax` either keeps its incumbent (when nothing
beats it) or lands on a position carrying an upper bound of the pending
elements and the incumbent value. -/
theorem argmax_go_spec :
    ∀ (xs : List Nat) (bv bi i : Nat),
      (argmaxIdx.go xs bv bi i = bi ∧ ∀ x ∈ xs, x ≤ bv)
      ∨ ∃ k, k < xs.length ∧ argmaxIdx.go xs bv bi i = i + k
          ∧ bv ≤ xs.getD k 0 ∧ ∀ x ∈ xs, x ≤ xs.getD k 0 := by
  intro xs
  induction xs with
  | nil => intro bv bi i; left; exact ⟨rfl, by intro x hx; simp at hx⟩
  | cons x xs' ih =>
    intro bv bi i
    unfold argmaxIdx.go
    by_cases hlt : bv < x
    · rw [if_pos hlt]
      rcases ih x i (i + 1) with ⟨hj, hall⟩ | ⟨k, hk, hj, hbv, hall⟩
      · right
        refine ⟨0, by simp, by rw [hj]; omega, Nat.le_of_lt hlt, ?_⟩
        intro y hy
        rcases List.mem_cons.mp hy with rfl | hy'
        · simp
        · simpa using hall y hy'
      · right
        refine ⟨k + 1, by simpa using hk, by rw [hj]; omega, ?_, ?_⟩
        · have hgd : (x :: xs').getD (k + 1) 0 = xs'.getD k 0 := by simp
          rw [hgd]
          exact Nat.le_trans (Nat.le_of_lt hlt) hbv
        · intro y hy
          have hgd : (x :: xs').getD (k + 1) 0 = xs'.getD k 0 := by simp
          rw [hgd]
          rcases List.mem_cons.mp hy with rfl | hy'
          · exact hbv
          · exact hall y hy'
    · rw [if_neg hlt]
      rcases ih bv bi (i + 1) with ⟨hj, hall⟩ | ⟨k, hk, hj, hbv, hall⟩
      · left
        refine ⟨hj, ?_⟩
        intro y hy
        rcases List.mem_cons.mp hy with rfl | hy'
        · exact Nat.le_of_not_lt hlt
        · exact hall y hy'
      · right
        refine ⟨k + 1, by simpa using hk, by rw [hj]; omega, ?_, ?_⟩
        · have hgd : (x :: xs').getD (k + 1) 0 = xs'.getD k 0 := by simp
          rw [hgd]
          exact hbv
        · intro y hy
          have hgd : (x :: xs').getD (k + 1) 0 = xs'.getD k 0 := by simp
          rw [hgd]
          rcases List.mem_cons.mp hy with rfl | hy'
          · exact Nat.le_trans (Nat.le_of_not_lt hlt) hbv
          · exact hall y hy'

/-- `np.argmax` lands inside the list, on its maximum. -/
theorem argmax_spec (l : List Nat) (h : l ≠ []) :
    argmaxIdx l < l.length ∧ ∀ x ∈ l, x ≤ l.getD (argmaxIdx l) 0 := by
  cases l with
  | nil => exact absurd rfl h
  | cons a rest =>
    have heq : argmaxIdx (a :: rest) = argmaxIdx.go rest a 0 1 := rfl
    rcases argmax_go_spec rest a 0 1 with ⟨hj, hall⟩ | ⟨k, hk, hj, hbv, hall⟩
    · rw [heq, hj]
      constructor
      · simp
      · intro x hx
        rcases List.mem_cons.mp hx with rfl | hx'
        · simp
        · simpa using hall x hx'
    · rw [heq, hj]
      have h1k : 1 + k = k + 1 := Nat.add_comm 1 k
      rw [h1k]
      constructor
      · simp only [List.length_cons]
        omega
      · have hgd : (a :: rest).getD (k + 1) 0 = rest.getD k 0 := by simp
        rw [hgd]
        intro x hx
        rcases List.mem_cons.mp hx with rfl | hx'
        · exact hbv
        · exact hall x hx'

/-- `modeDelta` is a statistical mode: it occurs in the list, with maximal
multiplicity. -/
theorem modeDelta_spec (l : List Int) (h : l ≠ []) :
    modeDelta l ∈ l ∧ ∀ d ∈ l, l.count d ≤ l.count (modeDelta l) := by
  have hvals_mem : ∀ a : Int,
      a ∈ insertionSort (fun a b => a < b) (firstDedup l) ↔ a ∈ l := by
    intro a
    rw [mem_insertionSort, mem_firstDedup]
  set values := insertionSort (fun a b => a < b) (firstDedup l) with hv
  have hvne : values ≠ [] := by
    obtain ⟨a, ha⟩ := List.exists_mem_of_ne_nil l h
    intro hemp
    rw [← hvals_mem a] at ha
    rw [hemp] at ha
    simp at ha
  set counts := values.map (fun v => l.count v) with hc
  have hcne : counts ≠ [] := by
    intro hemp
    rw [hc] at hemp
    exact hvne (List.map_eq_nil_iff.mp hemp)
  obtain ⟨hjlt, hjmax⟩ := argmax_spec counts hcne
  have hjv : argmaxIdx counts < values.length := by
    rw [hc, List.length_map] at hjlt
    exact hjlt
  have hmode : modeDelta l = values.getD (argmaxIdx counts) 0 := by
    unfold modeDelta npUniqueCounts
    rfl
  have hcount_get : counts.getD (argmaxIdx counts) 0 = l.count (values.getD (argmaxIdx counts) 0) := by
    rw [hc, List.getD_eq_getElem?_getD, List.getElem?_map, List.getElem?_eq_getElem hjv]
    simp [List.getD_eq_getElem?_getD, List.getElem?_eq_getElem hjv]
  constructor
  · rw [hmode, ← hvals_mem]
    rw [List.getD_eq_getElem?_getD, List.getElem?_eq_getElem hjv]
    exact List.getElem_mem hjv
  · intro d hd
    rw [← hvals_mem] at hd
    obtain ⟨i, hi, hdi⟩ := List.getElem_of_mem hd
    have hcnt : counts.getD i 0 = l.count d := by
      rw [hc, List.getD_eq_getElem?_getD, List.getElem?_map, List.getElem?_eq_getElem hi, hdi]
      rfl
    have hmem : counts.getD i 0 ∈ counts := by
      have hic : i < counts.length := by rw [hc, List.length_map]; exact hi
      rw [List.getD_eq_getElem?_getD, List.getElem?_eq_getElem hic]
      exact List.getElem_mem hic
    have := hjmax _ hmem
    rw [hcnt] at this
    rw [hmode, ← hcount_get]
    exact this

/-- Monad-law step used to thread successful collaborator calls through the
inference body. -/
theorem bind_ok_py {α β : Type} (a : α) (f : α → Except PyErr β) :
    ((Except.ok a : Except PyErr α) >>= f) = f a := rfl

/-- **C7.** `infer_frequency` sorts the time column, converts it, takes the
unique timestamps, and asks the categorical inference first; a categorical
answer is returned as is, and only on `None` does it fall back to the
statistical mode of the successive deltas (an element of maximal
multiplicity among the diffs), rendered as a period string; a `TypeError`
anywhere (e.g. a non-timestamp column) yields the supplied default. -/
theorem claim_C7 (C : FreqCollab) (df : DF) (tc default : String) :
    (∀ sorted dates f, sortSeries (colVals df tc) = Except.ok sorted →
        sorted.mapM C.toDT = Except.ok dates →
        C.inferFreq (firstDedup dates) = Except.ok (some f) →
        infer_frequency C df tc default = Except.ok f)
    ∧ (∀ sorted dates, sortSeries (colVals df tc) = Except.ok sorted →
        sorted.mapM C.toDT = Except.ok dates →
        C.inferFreq (firstDedup dates) = Except.ok none →
        listDiffs (firstDedup dates) ≠ [] →
        (∀ fs, C.freqstr (modeDelta (listDiffs (firstDedup dates))) = Except.ok fs →
            infer_frequency C df tc default = Except.ok fs)
        ∧ modeDelta (listDiffs (firstDedup dates)) ∈ listDiffs (firstDedup dates)
        ∧ ∀ d ∈ listDiffs (firstDedup dates),
            (listDiffs (firstDedup dates)).count d
              ≤ (listDiffs (firstDedup dates)).count (modeDelta (listDiffs (firstDedup dates))))
    ∧ (infer_frequency_body C df tc = Except.error PyErr.typeErr →
        infer_frequency C df tc default = Except.ok default) := by
  refine ⟨?_, ?_, ?_⟩
  · intro sorted dates f hs hd hf
    have hbody : infer_frequency_body C df tc = Except.ok (some f) := by
      unfold infer_frequency_body
      rw [hs, bind_ok_py, hd, bind_ok_py]
      simp only [hf, bind_ok_py]
      rfl
    unfold infer_frequency
    rw [hbody]
    rfl
  · intro sorted dates hs hd hf hne
    refine ⟨?_, (modeDelta_spec _ hne).1, (modeDelta_spec _ hne).2⟩
    intro fs hfs
    have hbody : infer_frequency_body C df tc = Except.ok (some fs) := by
      unfold infer_frequency_body
      rw [hs, bind_ok_py, hd, bind_ok_py]
      simp only [hf, bind_ok_py]
      rw [if_neg hne]
      simp only [hfs, bind_ok_py]
      rfl
    unfold infer_frequency
    rw [hbody]
    rfl
  · intro hb
    unfold infer_frequency
    rw [hb]

/-- **C7 witness:** daily ticks with one gap (and one duplicate) fall back
to the mode of the deltas and yield the daily code `"D"`; a non-timestamp
column yields the supplied default. -/
theorem claim_C7_witness :
    infer_frequency CdailyEx dfDaily "tm" "Z" = Except.ok "D"
    ∧ infer_frequency CdailyEx dfStrCol "tm" "QQ" = Except.ok "QQ" := by
  constructor
  · exact (((claim_C7 CdailyEx dfDaily "tm" "Z").2.1
      [Value.time 0, Value.time 1, Value.time 1, Value.time 2, Value.time 4]
      [0, 1, 1, 2, 4] (by decide) (by decide) (by decide) (by decide)).1 "D" (by decide))
  · exact (claim_C7 CdailyEx dfStrCol "tm" "QQ").2.2 (by decide)

/-! ## Row and list helper lemmas for the converter closed forms -/

/-- Option-monad step. -/
theorem obind_some {α β : Type} (a : α) (f : α → Option β) :
    ((some a : Option α) >>= f) = f a := rfl

/-- Reading the key just written. -/
theorem rget_cons_eq (c : String) (v : Value) (r : Row) :
    rget ((c, v) :: r) c = v := by
  simp [rget, List.find?_cons_of_pos]

/-- Reading past an unrelated key. -/
theorem rget_cons_ne {c' c : String} (h : c' ≠ c) (v : Value) (r : Row) :
    rget ((c', v) :: r) c = rget r c := by
  unfold rget
  rw [List.find?_cons_of_neg _ (by simpa using h)]

/-- Reading past a block of unrelated keys. -/
theorem rget_append_right {c : String} :
    ∀ (r1 : Row), (∀ p ∈ r1, p.1 ≠ c) → ∀ r2, rget (r1 ++ r2) c = rget r2 c := by
  intro r1
  induction r1 with
  | nil => intro _ r2; rfl
  | cons p r1' ih =>
    intro h r2
    rw [List.cons_append, rget_cons_ne (h p (List.mem_cons_self _ _)) _ _]
    · exact ih (fun q hq => h q (List.mem_cons_of_mem _ hq)) r2

/-- A key found in the left block reads from the left block. -/
theorem rget_append_left {c : String} :
    ∀ (r1 : Row), rget r1 c ≠ Value.nan → ∀ r2, rget (r1 ++ r2) c = rget r1 c := by
  intro r1
  induction r1 with
  | nil => intro h; exact absurd rfl h
  | cons p r1' ih =>
    intro h r2
    by_cases hp : p.1 = c
    · have hpc : p = (c, p.2) := by rw [← hp]
      rw [hpc, List.cons_append, rget_cons_eq, rget_cons_eq]
    · rw [List.cons_append, rget_cons_ne hp _ _, rget_cons_ne hp _ _]
      rw [rget_cons_ne hp _ _] at h
      exact ih h r2

/-- A key absent from a row reads as missing data. -/
theorem rget_not_mem {c : String} :
    ∀ (r : Row), (∀ p ∈ r, p.1 ≠ c) → rget r c = Value.nan := by
  intro r
  induction r with
  | nil => intro _; rfl
  | cons p r' ih =>
    intro h
    rw [rget_cons_ne (h p (List.mem_cons_self _ _)) _ _]
    exact ih (fun q hq => h q (List.mem_cons_of_mem _ hq))

/-- Looking a requested column up in a `df[cs]`-selected row gives the
original cell. -/
theorem rget_canon (r : Row) :
    ∀ (cs : List String) (c : String), c ∈ cs →
      rget (cs.map (fun c' => (c', rget r c'))) c = rget r c := by
  intro cs
  induction cs with
  | nil => intro c hc; simp at hc
  | cons c0 cs' ih =>
    intro c hc
    by_cases hcc : c0 = c
    · subst hcc
      rw [List.map_cons, rget_cons_eq]
    · rw [List.map_cons, rget_cons_ne hcc _ _]
      rcases List.mem_cons.mp hc with h | h
      · exact absurd h.symm hcc
      · exact ih c h

/-- Pointwise-equal functions map lists equally (membership form). -/
theorem mapCongrMem {α β : Type} {l : List α} {f g : α → β}
    (h : ∀ a ∈ l, f a = g a) : l.map f = l.map g := by
  induction l with
  | nil => rfl
  | cons a l' ih =>
    rw [List.map_cons, List.map_cons, h a (List.mem_cons_self _ _),
      ih (fun x hx => h x (List.mem_cons_of_mem _ hx))]

/-- Pointwise-equal functions flat-map lists equally (membership form). -/
theorem flatMapCongrMem {α β : Type} {l : List α} {f g : α → List β}
    (h : ∀ a ∈ l, f a = g a) : l.flatMap f = l.flatMap g := by
  induction l with
  | nil => rfl
  | cons a l' ih =>
    simp only [List.flatMap_cons]
    rw [h a (List.mem_cons_self _ _), ih (fun x hx => h x (List.mem_cons_of_mem _ hx))]

/-- Mapping over a flat-map pushes inside. -/
theorem mapFlatMap {α β γ : Type} (g : β → γ) (f : α → List β) :
    ∀ l : List α, (l.flatMap f).map g = l.flatMap (fun a => (f a).map g) := by
  intro l
  induction l with
  | nil => rfl
  | cons a l' ih =>
    simp only [List.flatMap_cons, List.map_append, ih]

/-- `pd.concat` introduces no new columns when the appended frames only
carry known ones. -/
theorem listUnion_eq_self (a : List String) :
    ∀ b : List String, (∀ c ∈ b, c ∈ a) → listUnion a b = a := by
  intro b hb
  unfold listUnion
  have hnil : b.filter (fun c => !(a.contains c)) = [] := by
    rw [List.filter_eq_nil_iff]
    intro c hc
    simpa using hb c hc
  rw [hnil, List.append_nil]

/-- `str.split` never returns an empty list. -/
theorem splitChars_ne_nil (sep : Char) : ∀ s : List Char, splitChars sep s ≠ [] := by
  intro s
  cases s with
  | nil => simp [splitChars]
  | cons c rest =>
    unfold splitChars
    cases h : splitChars sep rest with
    | nil => simp
    | cons p ps =>
      by_cases hc : c == sep
      · simp [hc]
      · simp [hc]

/-- Splitting a separator-free string is the identity. -/
theorem splitChars_no_sep (sep : Char) :
    ∀ s : List Char, sep ∉ s → splitChars sep s = [s] := by
  intro s
  induction s with
  | nil => intro _; rfl
  | cons c rest ih =>
    intro h
    have hc : ¬(c == sep) = true := by
      simp only [beq_iff_eq]
      intro hce
      exact h (hce ▸ List.mem_cons_self _ _)
    have hrest : sep ∉ rest := fun hr => h (List.mem_cons_of_mem _ hr)
    unfold splitChars
    rw [ih hrest]
    simp [hc]

/-- Splitting past a separator-free head block peels it off whole. -/
theorem splitChars_append_sep (sep : Char) :
    ∀ (p t : List Char), sep ∉ p →
      splitChars sep (p ++ sep :: t) = p :: splitChars sep t := by
  intro p
  induction p with
  | nil =>
    intro t _
    rw [List.nil_append]
    cases h : splitChars sep t with
    | nil => exact absurd h (splitChars_ne_nil sep t)
    | cons q qs =>
      simp only [splitChars]
      rw [h]
      simp
  | cons c p' ih =>
    intro t h
    have hc : ¬(c == sep) = true := by
      simp only [beq_iff_eq]
      intro hce
      exact h (hce ▸ List.mem_cons_self _ _)
    have hp' : sep ∉ p' := fun hr => h (List.mem_cons_of_mem _ hr)
    rw [List.cons_append]
    simp only [splitChars]
    rw [ih t hp']
    simp [hc]

/-- `split` inverts `join` on nonempty part lists free of the separator. -/
theorem splitChars_join (sep : Char) :
    ∀ parts : List (List Char), parts ≠ [] → (∀ p ∈ parts, sep ∉ p) →
      splitChars sep (joinChars [sep] parts) = parts := by
  intro parts
  induction parts with
  | nil => intro h _; exact absurd rfl h
  | cons p rest ih =>
    intro _ hfree
    cases rest with
    | nil =>
      show splitChars sep p = [p]
      exact splitChars_no_sep sep p (hfree p (List.mem_cons_self _ _))
    | cons p2 rest' =>
      have hj : joinChars [sep] (p :: p2 :: rest') = p ++ sep :: joinChars [sep] (p2 :: rest') := by
        show p ++ [sep] ++ joinChars [sep] (p2 :: rest') = p ++ sep :: joinChars [sep] (p2 :: rest')
        rw [List.append_assoc]
        rfl
      rw [hj, splitChars_append_sep sep p _ (hfree p (List.mem_cons_self _ _)),
        ih (by simp) (fun q hq => hfree q (List.mem_cons_of_mem _ hq))]

/-- String-level split/join round trip: Python `"/".join(parts).split("/")`
recovers `parts` when no part contains the delimiter. -/
theorem pySplit_pyJoin (parts : List String) (hne : parts ≠ [])
    (hfree : ∀ p ∈ parts, '/' ∉ p.data) :
    pySplit '/' (pyJoin "/" parts) = parts := by
  unfold pySplit pyJoin
  have hd : (String.mk (joinChars "/".data (parts.map String.data))).data
      = joinChars "/".data (parts.map String.data) := rfl
  rw [hd]
  have hsep : "/".data = ['/'] := rfl
  rw [hsep]
  rw [splitChars_join '/' (parts.map String.data)
    (by simpa using hne)
    (by intro q hq; obtain ⟨s, hs, rfl⟩ := List.mem_map.mp hq; exact hfree s hs)]
  have : ∀ l : List String, l.map (fun s => String.mk s.data) = l := by
    intro l
    induction l with
    | nil => rfl
    | cons s l' ihl => rw [List.map_cons, ihl]
  rw [List.map_map]
  exact this parts

/-- Casting columns to string leaves the column list unchanged. -/
theorem astype_cols : ∀ (cs : List String) (d : DF), (astype_str_cols d cs).cols = d.cols := by
  intro cs
  induction cs with
  | nil => intro d; rfl
  | cons c cs' ih => intro d; rw [astype_str_cols, List.foldl_cons]; exact ih _

/-- Row-level form of `astype(str)` over distinct columns. -/
theorem astype_rows : ∀ (cs : List String) (d : DF), cs.Nodup →
    (astype_str_cols d cs).rows = d.rows.map (rowAstype cs) := by
  intro cs
  induction cs with
  | nil =>
    intro d _
    show d.rows = d.rows.map (rowAstype [])
    have hid : ∀ r : Row, rowAstype [] r = id r := by
      intro r
      unfold rowAstype
      have h1 : r.map (fun p => if p.1 ∈ ([] : List String) then (p.1, Value.str p.2.toStr) else p)
          = r.map id := mapCongrMem (by intro p _; simp)
      rw [h1, List.map_id]
      rfl
    rw [mapCongrMem (fun r _ => hid r), List.map_id]
  | cons c cs' ih =>
    intro d hnd
    have hc : c ∉ cs' := (List.nodup_cons.mp hnd).1
    have hnd' : cs'.Nodup := (List.nodup_cons.mp hnd).2
    rw [astype_str_cols, List.foldl_cons]
    have hstep : (astype_str_cols (d.mapColVals c (fun v => Value.str v.toStr)) cs')
        = astype_str_cols (d.mapColVals c (fun v => Value.str v.toStr)) cs' := rfl
    rw [show (List.foldl (fun d c => d.mapColVals c fun v => Value.str v.toStr) (d.mapColVals c fun v => Value.str v.toStr) cs') = astype_str_cols (d.mapColVals c (fun v => Value.str v.toStr)) cs' from rfl]
    rw [ih _ hnd']
    show (d.rows.map _).map _ = _
    rw [List.map_map]
    apply mapCongrMem
    intro r _
    show rowAstype cs' (r.map (fun p => if p.1 == c then (p.1, Value.str p.2.toStr) else p))
        = rowAstype (c :: cs') r
    unfold rowAstype
    rw [List.map_map]
    apply mapCongrMem
    intro p _
    by_cases hpc : p.1 = c
    · have hb : (p.1 == c) = true := by simp [hpc]
      simp only [Function.comp, hb, if_true]
      have h1 : p.1 ∈ c :: cs' := by rw [hpc]; exact List.mem_cons_self _ _
      have h2 : (p.1 ∉ cs') := hpc ▸ hc
      simp [h2, h1, Value.toStr]
    · have hb : (p.1 == c) = false := by simp [hpc]
      simp only [Function.comp, hb, if_false]
      by_cases hmem : p.1 ∈ cs'
      · have h1 : p.1 ∈ c :: cs' := List.mem_cons_of_mem _ hmem
        simp [hmem, h1]
      · have h1 : p.1 ∉ c :: cs' := by
          intro hin
          rcases List.mem_cons.mp hin with h | h
          · exact hpc h
          · exact hmem h
        simp [hmem, h1]

/-- Wrapping the zipped values through `str` commutes with stringifying them
first. -/
theorem zip_map_str : ∀ (gb : List String) (k : List Value),
    (gb.zip k).map (fun p => (p.1, Value.str p.2.toStr))
      = (gb.zip (k.map Value.toStr)).map (fun q => (q.1, Value.str q.2)) := by
  intro gb
  induction gb with
  | nil => intro k; rfl
  | cons g gb' ih =>
    intro k
    cases k with
    | nil => rfl
    | cons v k' =>
      simp only [List.map_cons, List.zip_cons_cons]
      rw [ih k']

/-- Reading the grouping columns out of a row made of unrelated leading
entries followed by one string entry per grouping column recovers exactly
those strings. -/
theorem map_rget_pre_zipstr :
    ∀ (gb : List String) (vals : List String) (pre : Row), gb.Nodup →
      gb.length = vals.length → (∀ g ∈ gb, ∀ p ∈ pre, p.1 ≠ g) →
      gb.map (fun c => rget (pre ++ (gb.zip vals).map (fun q => (q.1, Value.str q.2))) c)
        = vals.map Value.str := by
  intro gb
  induction gb with
  | nil =>
    intro vals pre _ hlen _
    cases vals with
    | nil => rfl
    | cons v vs => simp at hlen
  | cons g gb' ih =>
    intro vals pre hnd hlen hpre
    cases vals with
    | nil => simp at hlen
    | cons v vs =>
      have hg_not : g ∉ gb' := (List.nodup_cons.mp hnd).1
      have hnd' : gb'.Nodup := (List.nodup_cons.mp hnd).2
      have hlen' : gb'.length = vs.length := by simpa using hlen
      simp only [List.zip_cons_cons, List.map_cons]
      congr 1
      case _ =>
        rw [rget_append_right pre (fun p hp => hpre g (List.mem_cons_self _ _) p hp),
          rget_cons_eq]
      case _ =>
        have hstep : ∀ c ∈ gb',
            rget (pre ++ (g, Value.str v) :: (gb'.zip vs).map (fun q => (q.1, Value.str q.2))) c
              = rget ((pre ++ [(g, Value.str v)])
                  ++ (gb'.zip vs).map (fun q => (q.1, Value.str q.2))) c := by
          intro c _
          rw [List.append_assoc]
          rfl
        rw [mapCongrMem hstep]
        exact ih vs (pre ++ [(g, Value.str v)]) hnd' hlen' (by
          intro c hc p hp
          rcases List.mem_append.mp hp with hpp | hpg
          · exact hpre c (List.mem_cons_of_mem _ hc) p hpp
          · have hpe : p = (g, Value.str v) := by simpa using hpg
            rw [hpe]
            intro hgc
            have hgc' : g = c := hgc
            exact hg_not (hgc' ▸ hc))

/-- Every group key is the grouping tuple of some retained row, so in
particular it has one component per grouping column. -/
theorem groupKeys_mem (df : DF) (bys : List String) (k : List Value)
    (hk : k ∈ groupKeys df bys) :
    ∃ r ∈ keyedRows df bys, k = bys.map (rget r) := by
  unfold groupKeys at hk
  rw [mem_firstDedup] at hk
  obtain ⟨r, hr, hkr⟩ := List.mem_map.mp hk
  exact ⟨r, hr, hkr.symm⟩

/-- The row loop of `Series.apply` succeeds row-wise when every row
computation does, producing the mapped rows. -/
theorem optMapM_map {α β : Type} (f : α → Option β) (g : α → β) :
    ∀ l : List α, (∀ a ∈ l, f a = some (g a)) → optMapM f l = some (l.map g) := by
  intro l
  induction l with
  | nil => intro _; rfl
  | cons a l' ih =>
    intro h
    unfold optMapM
    rw [h a (List.mem_cons_self _ _), obind_some,
      ih (fun x hx => h x (List.mem_cons_of_mem _ hx)), obind_some]
    rfl

/-- Assigning a fresh column appends its entry at the right edge of the
row. -/
theorem rowSet_not_mem {r : Row} {c : String} (h : ∀ p ∈ r, p.1 ≠ c) (v : Value) :
    rowSet r c v = r ++ [(c, v)] := by
  unfold rowSet
  rw [if_neg]
  intro hany
  obtain ⟨p, hp, hpc⟩ := List.any_eq_true.mp hany
  exact h p hp (by simpa using hpc)

/-- Structure eta for frames. -/
theorem DF_eta (d : DF) : DF.mk d.cols d.rows = d := rfl

/-- Closed form of `transform_to_nixtla_df` with two or more grouping
columns, for a well-formed wide table: every group is resampled, the
grouping values are stringified and joined by `"/"` into `unique_id`, and
the selected frame carries exactly `unique_id, ds, y` plus the exogenous
columns (the latter `NaN` after resampling). -/

theorem transform_multi_closed
    (toDT : Value → Value) (rs : Resampler) (df : DF) (s : Settings) (exog : List String)
    (hlen : 1 < s.group_by.length)
    (hnd : s.group_by.Nodup)
    (ho : s.order_by ∈ df.cols) (ht : s.target ∈ df.cols) (hg : ∀ g ∈ s.group_by, g ∈ df.cols)
    (hog : s.order_by ∉ s.group_by) (htg : s.target ∉ s.group_by) (hot : s.order_by ≠ s.target)
    (hgres : ∀ g ∈ s.group_by, g ≠ "unique_id" ∧ g ≠ "ds" ∧ g ≠ "y" ∧ g ≠ "ignore this")
    (hores : s.order_by ≠ "unique_id" ∧ s.order_by ≠ "y" ∧ s.order_by ≠ "ignore this")
    (htres : s.target ≠ "unique_id" ∧ s.target ≠ "ds" ∧ s.target ≠ "ignore this")
    (huid : "unique_id" ∉ df.cols) (hign : "ignore this" ∉ df.cols)
    (hexog : ∀ e ∈ exog, e ∈ df.cols ∧ e ≠ "unique_id" ∧ e ≠ "ds" ∧ e ≠ "y"
        ∧ e ∉ s.group_by ∧ e ≠ s.order_by ∧ e ≠ s.target) :
    transform_to_nixtla_df toDT rs df s exog = some
      { cols := ["unique_id", "ds", "y"] ++ exog,
        rows := (groupKeys df s.group_by).flatMap (fun k =>
          (rs s.frequency ((groupRows df s.group_by k).map
              (fun r => (toDT (rget r s.order_by), rget r s.target)))).map
            (fun tv =>
              ("unique_id", Value.str (pyJoin "/" (k.map Value.toStr)))
                :: ("ds", toDT tv.1) :: ("y", tv.2)
                :: exog.map (fun e => (e, Value.nan)))) } := by
  have hcond1 : s.group_by ≠ [] ∧ s.group_by ≠ ["__group_by"] := by
    constructor
    · intro h; rw [h] at hlen; simp at hlen
    · intro h; rw [h] at hlen; simp at hlen
  have hsub : ∀ c ∈ [s.order_by, s.target] ++ s.group_by, c ∈ df.cols := by
    intro c hc
    rcases List.mem_append.mp hc with hc1 | hc2
    · rcases List.mem_cons.mp hc1 with rfl | hc1'
      · exact ho
      · rcases List.mem_cons.mp hc1' with rfl | habs
        · exact ht
        · simp at habs
    · exact hg c hc2
  have hres : resample_step toDT rs df s = some
      { cols := df.cols,
        rows := (groupKeys df s.group_by).flatMap (fun k =>
          (rs s.frequency ((groupRows df s.group_by k).map
              (fun r => (toDT (rget r s.order_by), rget r s.target)))).map
            (fun tv => (s.order_by, tv.1) :: (s.target, tv.2) :: s.group_by.zip k)) } := by
    unfold resample_step
    rw [if_pos ⟨ho, ht, hg⟩, listUnion_eq_self df.cols _ hsub]
  unfold transform_to_nixtla_df
  rw [if_pos hcond1, hres, obind_some]
  simp only [hlen, if_true, obind_some]
  set R : List Row := (groupKeys df s.group_by).flatMap (fun k =>
    (rs s.frequency ((groupRows df s.group_by k).map
        (fun r => (toDT (rget r s.order_by), rget r s.target)))).map
      (fun tv => (s.order_by, tv.1) :: (s.target, tv.2) :: s.group_by.zip k)) with hR
  have hastype : astype_str_cols ⟨df.cols, R⟩ s.group_by
      = ⟨df.cols, R.map (rowAstype s.group_by)⟩ := by
    calc astype_str_cols ⟨df.cols, R⟩ s.group_by
        = ⟨(astype_str_cols ⟨df.cols, R⟩ s.group_by).cols,
           (astype_str_cols ⟨df.cols, R⟩ s.group_by).rows⟩ := rfl
      _ = ⟨df.cols, R.map (rowAstype s.group_by)⟩ := by
          rw [astype_cols, astype_rows _ _ hnd]
  rw [hastype]
  have hcontains : ¬(df.cols.contains "unique_id" = true) := by simpa using huid
  have hsetuid : add_unique_id ⟨df.cols, R.map (rowAstype s.group_by)⟩ s.group_by
      = ⟨df.cols ++ ["unique_id"], (R.map (rowAstype s.group_by)).map
          (fun r => rowSet r "unique_id"
            (Value.str (pyJoin "/" (s.group_by.map (fun c => (rget r c).toStr)))))⟩ := by
    unfold add_unique_id DF.setCol
    rw [if_neg hcontains]
  rw [hsetuid]
  simp only [DF.renameWith]
  have hrnuid : renameMap "ignore this" s.order_by s.target "unique_id" = "unique_id" := by
    unfold renameMap
    rw [if_neg (by decide), if_neg (Ne.symm hores.1), if_neg (Ne.symm htres.1)]
  have hmemuid : "unique_id" ∈ (df.cols ++ ["unique_id"]).map
      (renameMap "ignore this" s.order_by s.target) :=
    List.mem_map.mpr ⟨"unique_id", List.mem_append_right _ (by simp), hrnuid⟩
  rw [if_pos hmemuid]
  simp only [DF.mapColVals]
  unfold DF.select
  have hrno : renameMap "ignore this" s.order_by s.target s.order_by = "ds" := by
    unfold renameMap
    rw [if_neg hores.2.2, if_pos rfl]
  have hrnt : renameMap "ignore this" s.order_by s.target s.target = "y" := by
    unfold renameMap
    rw [if_neg htres.2.2, if_neg (Ne.symm hot), if_pos rfl]
  have hrne : ∀ e ∈ exog, renameMap "ignore this" s.order_by s.target e = e := by
    intro e he
    obtain ⟨hedf, _, _, _, _, heo, het⟩ := hexog e he
    unfold renameMap
    have hei : e ≠ "ignore this" := by
      intro hei
      rw [hei] at hedf
      exact hign hedf
    rw [if_neg hei, if_neg heo, if_neg het]
  have hall : (["unique_id", "ds", "y"] ++ exog).all
      (fun c => ((df.cols ++ ["unique_id"]).map
        (renameMap "ignore this" s.order_by s.target)).contains c) = true := by
    rw [List.all_eq_true]
    intro c hc
    rcases List.mem_append.mp hc with hc3 | hce
    · rcases List.mem_cons.mp hc3 with rfl | hc3'
      · exact List.elem_eq_true_of_mem hmemuid
      · rcases List.mem_cons.mp hc3' with rfl | hc3''
        · exact List.elem_eq_true_of_mem
            (List.mem_map.mpr ⟨s.order_by, List.mem_append_left _ ho, hrno⟩)
        · rcases List.mem_cons.mp hc3'' with rfl | habs
          · exact List.elem_eq_true_of_mem
              (List.mem_map.mpr ⟨s.target, List.mem_append_left _ ht, hrnt⟩)
          · simp at habs
    · exact List.elem_eq_true_of_mem
        (List.mem_map.mpr ⟨c, List.mem_append_left _ (hexog c hce).1, hrne c hce⟩)
  rw [if_pos hall]
  refine congrArg some (congrArg (DF.mk (["unique_id", "ds", "y"] ++ exog)) ?_)
  simp only [List.map_map]
  rw [hR, mapFlatMap]
  apply flatMapCongrMem
  intro k hk
  have hklen : s.group_by.length = k.length := by
    obtain ⟨r, _, hkr⟩ := groupKeys_mem df s.group_by k hk
    rw [hkr, List.length_map]
  rw [List.map_map]
  apply mapCongrMem
  intro tv _
  simp only [Function.comp]
  have h1 : rowAstype s.group_by ((s.order_by, tv.1) :: (s.target, tv.2) :: s.group_by.zip k)
      = (s.order_by, tv.1) :: (s.target, tv.2)
        :: (s.group_by.zip (k.map Value.toStr)).map (fun q => (q.1, Value.str q.2)) := by
    unfold rowAstype
    simp only [List.map_cons]
    rw [if_neg hog, if_neg htg]
    have hz : (s.group_by.zip k).map
        (fun p => if p.1 ∈ s.group_by then (p.1, Value.str p.2.toStr) else p)
        = (s.group_by.zip k).map (fun p => (p.1, Value.str p.2.toStr)) := by
      apply mapCongrMem
      intro p hp
      rw [if_pos (List.of_mem_zip hp).1]
    rw [hz, zip_map_str]
  rw [h1]
  set r1 : Row := (s.order_by, tv.1) :: (s.target, tv.2)
      :: (s.group_by.zip (k.map Value.toStr)).map (fun q => (q.1, Value.str q.2)) with hr1
  have hzipkeys : ∀ p ∈ (s.group_by.zip (k.map Value.toStr)).map
      (fun q => (q.1, Value.str q.2)), p.1 ∈ s.group_by := by
    intro p hp
    obtain ⟨q, hq, rfl⟩ := List.mem_map.mp hp
    exact (List.of_mem_zip hq).1
  have hjoin : s.group_by.map (fun c => (rget r1 c).toStr) = k.map Value.toStr := by
    have hpre : ∀ g ∈ s.group_by, ∀ p ∈ ([(s.order_by, tv.1), (s.target, tv.2)] : Row),
        p.1 ≠ g := by
      intro g hg' p hp
      rcases List.mem_cons.mp hp with rfl | hp'
      · intro h
        rw [show ((s.order_by, tv.1) : String × Value).1 = s.order_by from rfl] at h
        rw [h] at hog
        exact hog hg'
      · rcases List.mem_cons.mp hp' with rfl | habs
        · intro h
          rw [show ((s.target, tv.2) : String × Value).1 = s.target from rfl] at h
          rw [h] at htg
          exact htg hg'
        · simp at habs
    have hmr : s.group_by.map (fun c => rget r1 c) = (k.map Value.toStr).map Value.str := by
      have hlen2 : s.group_by.length = (k.map Value.toStr).length := by
        rw [List.length_map]
        exact hklen
      exact map_rget_pre_zipstr s.group_by (k.map Value.toStr)
        [(s.order_by, tv.1), (s.target, tv.2)] hnd hlen2 hpre
    calc s.group_by.map (fun c => (rget r1 c).toStr)
        = (s.group_by.map (fun c => rget r1 c)).map Value.toStr := by
          rw [List.map_map]
          rfl
      _ = ((k.map Value.toStr).map Value.str).map Value.toStr := by rw [hmr]
      _ = k.map Value.toStr := by
          rw [List.map_map, List.map_map]
          apply mapCongrMem
          intro v _
          rfl
  have h2 : rowSet r1 "unique_id"
      (Value.str (pyJoin "/" (s.group_by.map (fun c => (rget r1 c).toStr))))
      = r1 ++ [("unique_id", Value.str (pyJoin "/" (k.map Value.toStr)))] := by
    rw [hjoin]
    apply rowSet_not_mem
    intro p hp
    rw [hr1] at hp
    rcases List.mem_cons.mp hp with rfl | hp'
    · exact hores.1
    · rcases List.mem_cons.mp hp' with rfl | hp''
      · exact htres.1
      · exact (hgres _ (hzipkeys p hp'')).1
  rw [h2]
  have h3 : (r1 ++ [("unique_id", Value.str (pyJoin "/" (k.map Value.toStr)))]).map
      (fun p => (renameMap "ignore this" s.order_by s.target p.1, p.2))
      = ("ds", tv.1) :: ("y", tv.2)
        :: ((s.group_by.zip (k.map Value.toStr)).map (fun q => (q.1, Value.str q.2))
            ++ [("unique_id", Value.str (pyJoin "/" (k.map Value.toStr)))]) := by
    rw [hr1]
    simp only [List.map_append, List.map_cons]
    rw [show (renameMap "ignore this" s.order_by s.target s.order_by) = "ds" from hrno,
      show (renameMap "ignore this" s.order_by s.target s.target) = "y" from hrnt]
    have hz2 : ((s.group_by.zip (k.map Value.toStr)).map (fun q => (q.1, Value.str q.2))).map
        (fun p => (renameMap "ignore this" s.order_by s.target p.1, p.2))
        = (s.group_by.zip (k.map Value.toStr)).map (fun q => (q.1, Value.str q.2)) := by
      rw [List.map_map]
      apply mapCongrMem
      intro q hq
      have hqg : q.1 ∈ s.group_by := (List.of_mem_zip hq).1
      obtain ⟨hq1, hq2, hq3, hq4⟩ := hgres q.1 hqg
      show (renameMap "ignore this" s.order_by s.target q.1, Value.str q.2) = (q.1, Value.str q.2)
      unfold renameMap
      have hno : ¬(q.1 = s.order_by) := by
        intro h
        rw [h] at hqg
        exact hog hqg
      have hnt : ¬(q.1 = s.target) := by
        intro h
        rw [h] at hqg
        exact htg hqg
      rw [if_neg hq4, if_neg hno, if_neg hnt]
    rw [hz2]
    simp only [List.map_cons, List.map_nil, hrnuid, List.cons_append]
  rw [h3]
  set zipmap : Row := (s.group_by.zip (k.map Value.toStr)).map (fun q => (q.1, Value.str q.2)) with hzm
  set juidv : Value := Value.str (pyJoin "/" (k.map Value.toStr)) with hjv
  have h4 : (("ds", tv.1) :: ("y", tv.2) :: (zipmap ++ [("unique_id", juidv)])).map
      (fun p => if (p.1 == "ds") = true then (p.1, toDT p.2) else p)
      = ("ds", toDT tv.1) :: ("y", tv.2) :: (zipmap ++ [("unique_id", juidv)]) := by
    have hzds : zipmap.map (fun p => if (p.1 == "ds") = true then (p.1, toDT p.2) else p)
        = zipmap := by
      have hzid : zipmap.map (fun p => if (p.1 == "ds") = true then (p.1, toDT p.2) else p)
          = zipmap.map id := by
        apply mapCongrMem
        intro p hp
        have hne : ¬((p.1 == "ds") = true) := by
          simp only [beq_iff_eq]
          exact (hgres p.1 (hzipkeys p hp)).2.1
        rw [if_neg hne]
        rfl
      rw [hzid, List.map_id]
    simp only [List.map_cons, List.map_append, List.map_nil, hzds]
    rw [if_pos (by decide), if_neg (by decide), if_neg (by decide)]
  rw [h4]
  have hzup : ∀ p ∈ zipmap, p.1 ≠ "unique_id" := fun p hp => (hgres _ (hzipkeys p hp)).1
  have hu : rget (("ds", toDT tv.1) :: ("y", tv.2) :: (zipmap ++ [("unique_id", juidv)]))
      "unique_id" = juidv := by
    rw [rget_cons_ne (by decide), rget_cons_ne (by decide), rget_append_right _ hzup,
      rget_cons_eq]
  have hd4 : rget (("ds", toDT tv.1) :: ("y", tv.2) :: (zipmap ++ [("unique_id", juidv)]))
      "ds" = toDT tv.1 := rget_cons_eq _ _ _
  have hy4 : rget (("ds", toDT tv.1) :: ("y", tv.2) :: (zipmap ++ [("unique_id", juidv)]))
      "y" = tv.2 := by
    rw [rget_cons_ne (by decide), rget_cons_eq]
  have he4 : ∀ e ∈ exog,
      rget (("ds", toDT tv.1) :: ("y", tv.2) :: (zipmap ++ [("unique_id", juidv)])) e
        = Value.nan := by
    intro e he
    obtain ⟨_, heu, hed, hey, heg, _, _⟩ := hexog e he
    have hzge : ∀ p ∈ zipmap, p.1 ≠ e := by
      intro p hp h
      apply heg
      rw [← h]
      exact hzipkeys p hp
    rw [rget_cons_ne (Ne.symm hed), rget_cons_ne (Ne.symm hey), rget_append_right _ hzge,
      rget_cons_ne (Ne.symm heu)]
    rfl
  rw [List.map_append]
  simp only [List.map_cons, List.map_nil, hu, hd4, hy4]
  have hex4 : exog.map (fun e => (e,
      rget (("ds", toDT tv.1) :: ("y", tv.2) :: (zipmap ++ [("unique_id", juidv)])) e))
      = exog.map (fun e => (e, Value.nan)) := by
    apply mapCongrMem
    intro e he
    rw [he4 e he]
  rw [hex4]
  simp only [List.cons_append, List.nil_append]

/-- Closed form of `transform_to_nixtla_df` with a single (non-sentinel)
grouping column: the group column is renamed to `unique_id` directly, its
values kept as they are (no string coercion, no joining). -/
theorem transform_single_closed
    (toDT : Value → Value) (rs : Resampler) (df : DF) (s : Settings) (exog : List String)
    (g : String) (hgb : s.group_by = [g]) (hsent : g ≠ "__group_by")
    (ho : s.order_by ∈ df.cols) (ht : s.target ∈ df.cols) (hgc : g ∈ df.cols)
    (hog : s.order_by ≠ g) (htg : s.target ≠ g) (hot : s.order_by ≠ s.target)
    (hexog : ∀ e ∈ exog, e ∈ df.cols ∧ e ≠ "unique_id" ∧ e ≠ "ds" ∧ e ≠ "y"
        ∧ e ≠ g ∧ e ≠ s.order_by ∧ e ≠ s.target) :
    transform_to_nixtla_df toDT rs df s exog = some
      { cols := ["unique_id", "ds", "y"] ++ exog,
        rows := (groupKeys df [g]).flatMap (fun k =>
          (rs s.frequency ((groupRows df [g] k).map
              (fun r => (toDT (rget r s.order_by), rget r s.target)))).map
            (fun tv =>
              ("unique_id", k.getD 0 Value.nan) :: ("ds", toDT tv.1) :: ("y", tv.2)
                :: exog.map (fun e => (e, Value.nan)))) } := by
  have hcond1 : s.group_by ≠ [] ∧ s.group_by ≠ ["__group_by"] := by
    rw [hgb]
    constructor
    · simp
    · intro h
      rw [List.cons.injEq] at h
      exact hsent h.1
  have hg : ∀ c ∈ s.group_by, c ∈ df.cols := by
    rw [hgb]
    intro c hc
    rw [List.mem_singleton.mp hc]
    exact hgc
  have hsub : ∀ c ∈ [s.order_by, s.target] ++ s.group_by, c ∈ df.cols := by
    intro c hc
    rcases List.mem_append.mp hc with hc1 | hc2
    · rcases List.mem_cons.mp hc1 with rfl | hc1'
      · exact ho
      · rcases List.mem_cons.mp hc1' with rfl | habs
        · exact ht
        · simp at habs
    · exact hg c hc2
  have hres : resample_step toDT rs df s = some
      { cols := df.cols,
        rows := (groupKeys df s.group_by).flatMap (fun k =>
          (rs s.frequency ((groupRows df s.group_by k).map
              (fun r => (toDT (rget r s.order_by), rget r s.target)))).map
            (fun tv => (s.order_by, tv.1) :: (s.target, tv.2) :: s.group_by.zip k)) } := by
    unfold resample_step
    rw [if_pos ⟨ho, ht, hg⟩, listUnion_eq_self df.cols _ hsub]
  have hnotlen : ¬(1 < s.group_by.length) := by
    rw [hgb]
    simp
  unfold transform_to_nixtla_df
  rw [if_pos hcond1, hres, obind_some]
  simp only [hnotlen, if_false, hgb, obind_some]
  simp only [DF.renameWith]
  have hrnuid : renameMap g s.order_by s.target g = "unique_id" := by
    unfold renameMap
    rw [if_pos rfl]
  have hmemuid : "unique_id" ∈ df.cols.map (renameMap g s.order_by s.target) :=
    List.mem_map.mpr ⟨g, hgc, hrnuid⟩
  rw [if_pos hmemuid]
  simp only [DF.mapColVals]
  unfold DF.select
  have hrno : renameMap g s.order_by s.target s.order_by = "ds" := by
    unfold renameMap
    rw [if_neg hog, if_pos rfl]
  have hrnt : renameMap g s.order_by s.target s.target = "y" := by
    unfold renameMap
    rw [if_neg htg, if_neg (Ne.symm hot), if_pos rfl]
  have hrne : ∀ e ∈ exog, renameMap g s.order_by s.target e = e := by
    intro e he
    obtain ⟨hedf, _, _, _, heg, heo, het⟩ := hexog e he
    unfold renameMap
    rw [if_neg heg, if_neg heo, if_neg het]
  have hall : (["unique_id", "ds", "y"] ++ exog).all
      (fun c => (df.cols.map (renameMap g s.order_by s.target)).contains c) = true := by
    rw [List.all_eq_true]
    intro c hc
    rcases List.mem_append.mp hc with hc3 | hce
    · rcases List.mem_cons.mp hc3 with rfl | hc3'
      · exact List.elem_eq_true_of_mem hmemuid
      · rcases List.mem_cons.mp hc3' with rfl | hc3''
        · exact List.elem_eq_true_of_mem (List.mem_map.mpr ⟨s.order_by, ho, hrno⟩)
        · rcases List.mem_cons.mp hc3'' with rfl | habs
          · exact List.elem_eq_true_of_mem (List.mem_map.mpr ⟨s.target, ht, hrnt⟩)
          · simp at habs
    · exact List.elem_eq_true_of_mem (List.mem_map.mpr ⟨c, (hexog c hce).1, hrne c hce⟩)
  rw [if_pos hall]
  refine congrArg some (congrArg (DF.mk (["unique_id", "ds", "y"] ++ exog)) ?_)
  simp only [List.map_map]
  rw [mapFlatMap]
  apply flatMapCongrMem
  intro k hk
  obtain ⟨r0, _, hkr⟩ := groupKeys_mem df [g] k hk
  have hkeq : k = [rget r0 g] := by
    rw [hkr]
    rfl
  rw [List.map_map]
  apply mapCongrMem
  intro tv _
  simp only [Function.comp]
  rw [hkeq]
  have hzip : ([g].zip [rget r0 g]) = [(g, rget r0 g)] := rfl
  rw [hzip]
  have h3 : ((s.order_by, tv.1) :: (s.target, tv.2) :: [(g, rget r0 g)]).map
      (fun p => (renameMap g s.order_by s.target p.1, p.2))
      = ("ds", tv.1) :: ("y", tv.2) :: [("unique_id", rget r0 g)] := by
    simp only [List.map_cons, List.map_nil, hrno, hrnt, hrnuid]
  rw [h3]
  have h4 : (("ds", tv.1) :: ("y", tv.2) :: [("unique_id", rget r0 g)]).map
      (fun p => if (p.1 == "ds") = true then (p.1, toDT p.2) else p)
      = ("ds", toDT tv.1) :: ("y", tv.2) :: [("unique_id", rget r0 g)] := by
    simp only [List.map_cons, List.map_nil]
    rw [if_pos (by decide), if_neg (by decide), if_neg (by decide)]
  rw [h4]
  have hu : rget (("ds", toDT tv.1) :: ("y", tv.2) :: [("unique_id", rget r0 g)])
      "unique_id" = rget r0 g := by
    rw [rget_cons_ne (by decide), rget_cons_ne (by decide), rget_cons_eq]
  have hd4 : rget (("ds", toDT tv.1) :: ("y", tv.2) :: [("unique_id", rget r0 g)])
      "ds" = toDT tv.1 := rget_cons_eq _ _ _
  have hy4 : rget (("ds", toDT tv.1) :: ("y", tv.2) :: [("unique_id", rget r0 g)])
      "y" = tv.2 := by
    rw [rget_cons_ne (by decide), rget_cons_eq]
  have he4 : ∀ e ∈ exog,
      rget (("ds", toDT tv.1) :: ("y", tv.2) :: [("unique_id", rget r0 g)]) e
        = Value.nan := by
    intro e he
    obtain ⟨_, heu, hed, hey, _, _, _⟩ := hexog e he
    rw [rget_cons_ne (Ne.symm hed), rget_cons_ne (Ne.symm hey), rget_cons_ne (Ne.symm heu)]
    rfl
  rw [List.map_append]
  simp only [List.map_cons, List.map_nil, hu, hd4, hy4]
  have hex4 : exog.map (fun e => (e,
      rget (("ds", toDT tv.1) :: ("y", tv.2) :: [("unique_id", rget r0 g)]) e))
      = exog.map (fun e => (e, Value.nan)) := by
    apply mapCongrMem
    intro e he
    rw [he4 e he]
  rw [hex4]
  have hgd : ([rget r0 g] : List Value).getD 0 Value.nan = rget r0 g := rfl
  rw [hgd]
  simp only [List.cons_append, List.nil_append]

/-- A key present in the left block reads from the left block. -/
theorem rget_append_of_key_mem {c : String} :
    ∀ (r1 r2 : Row), (∃ p ∈ r1, p.1 = c) → rget (r1 ++ r2) c = rget r1 c := by
  intro r1
  induction r1 with
  | nil =>
    intro r2 h
    obtain ⟨p, hp, _⟩ := h
    simp at hp
  | cons q r1' ih =>
    intro r2 h
    by_cases hq : q.1 = c
    · have hqc : q = (c, q.2) := by rw [← hq]
      rw [hqc, List.cons_append, rget_cons_eq, rget_cons_eq]
    · rw [List.cons_append, rget_cons_ne hq _ _, rget_cons_ne hq _ _]
      apply ih
      obtain ⟨p, hp, hpc⟩ := h
      rcases List.mem_cons.mp hp with rfl | hp'
      · exact absurd hpc hq
      · exact ⟨p, hp', hpc⟩

/-- The first `ds` cell of a `to_datetime`-converted row is a converted
value. -/
theorem rget_mapds_exists (toDT : Value → Value) :
    ∀ r : Row, (∃ p ∈ r, p.1 = "ds") →
      ∃ v, rget (r.map (fun p => if (p.1 == "ds") = true then (p.1, toDT p.2) else p)) "ds"
        = toDT v := by
  intro r
  induction r with
  | nil =>
    intro h
    obtain ⟨p, hp, _⟩ := h
    simp at hp
  | cons q r' ih =>
    intro h
    by_cases hq : q.1 = "ds"
    · refine ⟨q.2, ?_⟩
      rw [List.map_cons, if_pos (by simpa using hq)]
      have : (q.1, toDT q.2) = ("ds", toDT q.2) := by rw [hq]
      rw [this, rget_cons_eq]
    · rw [List.map_cons, if_neg (by simpa using hq), rget_cons_ne hq _ _]
      apply ih
      obtain ⟨p, hp, hpc⟩ := h
      rcases List.mem_cons.mp hp with rfl | hp'
      · exact absurd hpc hq
      · exact ⟨p, hp', hpc⟩

/-- Converting the `ds` column preserves row keys. -/
theorem mapds_keys (toDT : Value → Value) (r : Row) :
    ∀ p ∈ r.map (fun p => if (p.1 == "ds") = true then (p.1, toDT p.2) else p),
      ∃ q ∈ r, p.1 = q.1 := by
  intro p hp
  obtain ⟨q, hq, rfl⟩ := List.mem_map.mp hp
  by_cases hqd : (q.1 == "ds") = true
  · rw [if_pos hqd]
    exact ⟨q, hq, rfl⟩
  · rw [if_neg hqd]
    exact ⟨q, hq, rfl⟩

/-- With the `['__group_by']` sentinel ("no grouping"): no resampling, no
join; the frame keeps its rows, `unique_id` is the constant `"1"`, and every
`ds` cell is a converted (`pd.to_datetime`) value. -/
theorem transform_sentinel_props
    (toDT : Value → Value) (rs : Resampler) (df : DF) (s : Settings) (exog : List String)
    (hgb : s.group_by = ["__group_by"])
    (ho : s.order_by ∈ df.cols) (ht : s.target ∈ df.cols) (hot : s.order_by ≠ s.target)
    (hsgb : "__group_by" ∉ df.cols) (huid : "unique_id" ∉ df.cols)
    (hkeys : ∀ r ∈ df.rows, ∀ p ∈ r, p.1 ∈ df.cols)
    (horder : ∀ r ∈ df.rows, ∃ p ∈ r, p.1 = s.order_by)
    (hexog : ∀ e ∈ exog, e ∈ df.cols ∧ e ≠ "unique_id" ∧ e ≠ s.order_by ∧ e ≠ s.target) :
    ∃ odf, transform_to_nixtla_df toDT rs df s exog = some odf
      ∧ odf.cols = ["unique_id", "ds", "y"] ++ exog
      ∧ (∀ r ∈ odf.rows, rget r "unique_id" = Value.str "1")
      ∧ (∀ r ∈ odf.rows, ∃ v, rget r "ds" = toDT v) := by
  have hcond1 : ¬(s.group_by ≠ [] ∧ s.group_by ≠ ["__group_by"]) := by
    rw [hgb]
    simp
  have hnotlen : ¬(1 < s.group_by.length) := by
    rw [hgb]
    simp
  have hne_gb : ∀ c ∈ df.cols, ¬(c = "__group_by") := by
    intro c hc he
    rw [he] at hc
    exact hsgb hc
  have hrno : renameMap "__group_by" s.order_by s.target s.order_by = "ds" := by
    unfold renameMap
    rw [if_neg (hne_gb _ ho), if_pos rfl]
  have hrnt : renameMap "__group_by" s.order_by s.target s.target = "y" := by
    unfold renameMap
    rw [if_neg (hne_gb _ ht), if_neg (Ne.symm hot), if_pos rfl]
  have hrne : ∀ e ∈ exog, renameMap "__group_by" s.order_by s.target e = e := by
    intro e he
    obtain ⟨hedf, _, heo, het⟩ := hexog e he
    unfold renameMap
    rw [if_neg (hne_gb _ hedf), if_neg heo, if_neg het]
  have hrnnot : ∀ c ∈ df.cols, ¬(renameMap "__group_by" s.order_by s.target c = "unique_id") := by
    intro c hc hrnc
    unfold renameMap at hrnc
    by_cases h1 : c = "__group_by"
    · exact hne_gb c hc h1
    · rw [if_neg h1] at hrnc
      by_cases h2 : c = s.order_by
      · rw [if_pos h2] at hrnc
        exact absurd hrnc (by decide)
      · rw [if_neg h2] at hrnc
        by_cases h3 : c = s.target
        · rw [if_pos h3] at hrnc
          exact absurd hrnc (by decide)
        · rw [if_neg h3] at hrnc
          rw [hrnc] at hc
          exact huid hc
  have huidnot : "unique_id" ∉ df.cols.map (renameMap "__group_by" s.order_by s.target) := by
    intro hmem
    obtain ⟨c, hc, hrnc⟩ := List.mem_map.mp hmem
    exact hrnnot c hc hrnc
  unfold transform_to_nixtla_df
  rw [if_neg hcond1, obind_some]
  simp only [hnotlen, if_false, hgb, obind_some]
  simp only [DF.renameWith]
  rw [if_neg huidnot]
  simp only [DF.setCol]
  have hcontains :
      ¬((df.cols.map (renameMap "__group_by" s.order_by s.target)).contains "unique_id" = true) := by
    simpa using huidnot
  rw [if_neg hcontains]
  simp only [DF.mapColVals]
  unfold DF.select
  have hall : (["unique_id", "ds", "y"] ++ exog).all
      (fun c => ((df.cols.map (renameMap "__group_by" s.order_by s.target))
        ++ ["unique_id"]).contains c) = true := by
    rw [List.all_eq_true]
    intro c hc
    rcases List.mem_append.mp hc with hc3 | hce
    · rcases List.mem_cons.mp hc3 with rfl | hc3'
      · exact List.elem_eq_true_of_mem (List.mem_append_right _ (by simp))
      · rcases List.mem_cons.mp hc3' with rfl | hc3''
        · exact List.elem_eq_true_of_mem
            (List.mem_append_left _ (List.mem_map.mpr ⟨s.order_by, ho, hrno⟩))
        · rcases List.mem_cons.mp hc3'' with rfl | habs
          · exact List.elem_eq_true_of_mem
              (List.mem_append_left _ (List.mem_map.mpr ⟨s.target, ht, hrnt⟩))
          · simp at habs
    · exact List.elem_eq_true_of_mem
        (List.mem_append_left _ (List.mem_map.mpr ⟨c, (hexog c hce).1, hrne c hce⟩))
  rw [if_pos hall]
  refine ⟨_, rfl, rfl, ?_, ?_⟩
  · intro rr hrr
    simp only [List.map_map] at hrr
    obtain ⟨r, hr, rfl⟩ := List.mem_map.mp hrr
    simp only [Function.comp]
    rw [rget_canon _ _ _ (List.mem_append_left _ (List.mem_cons_self _ _))]
    have hr3keys : ∀ p ∈ r.map (fun p =>
        (renameMap "__group_by" s.order_by s.target p.1, p.2)), p.1 ≠ "unique_id" := by
      intro p hp
      obtain ⟨q, hq, rfl⟩ := List.mem_map.mp hp
      exact hrnnot q.1 (hkeys r hr q hq)
    rw [rowSet_not_mem hr3keys, List.map_append]
    have hmuid : ([("unique_id", Value.str "1")] : Row).map
        (fun p => if (p.1 == "ds") = true then (p.1, toDT p.2) else p)
        = [("unique_id", Value.str "1")] := by
      simp only [List.map_cons, List.map_nil]
      rw [if_neg (by decide)]
    rw [hmuid, rget_append_right, rget_cons_eq]
    intro p hp
    obtain ⟨q, hq, hpq⟩ := mapds_keys toDT _ p hp
    rw [hpq]
    exact hr3keys q hq
  · intro rr hrr
    simp only [List.map_map] at hrr
    obtain ⟨r, hr, rfl⟩ := List.mem_map.mp hrr
    simp only [Function.comp]
    rw [rget_canon _ _ _ (List.mem_append_left _ (List.mem_cons_of_mem _ (List.mem_cons_self _ _)))]
    have hr3keys : ∀ p ∈ r.map (fun p =>
        (renameMap "__group_by" s.order_by s.target p.1, p.2)), p.1 ≠ "unique_id" := by
      intro p hp
      obtain ⟨q, hq, rfl⟩ := List.mem_map.mp hp
      exact hrnnot q.1 (hkeys r hr q hq)
    rw [rowSet_not_mem hr3keys, List.map_append]
    obtain ⟨q, hq, hqo⟩ := horder r hr
    have hkey : renameMap "__group_by" s.order_by s.target q.1 = "ds" := by
      rw [hqo, hrno]
    have hin1 : (("ds", q.2) : String × Value) ∈ r.map (fun p =>
        (renameMap "__group_by" s.order_by s.target p.1, p.2)) := by
      refine List.mem_map.mpr ⟨q, hq, ?_⟩
      rw [hkey]
    have hdsmem : ∃ p ∈ (r.map (fun p =>
        (renameMap "__group_by" s.order_by s.target p.1, p.2))).map
          (fun p => if (p.1 == "ds") = true then (p.1, toDT p.2) else p), p.1 = "ds" := by
      refine ⟨("ds", toDT q.2), ?_, rfl⟩
      refine List.mem_map.mpr ⟨("ds", q.2), hin1, ?_⟩
      simp
    rw [rget_append_of_key_mem _ _ hdsmem]
    apply rget_mapds_exists
    exact ⟨("ds", q.2), hin1, rfl⟩

/-- **C3 counterexample:** with the literal empty `group_by` list (and all
named columns present), `transform_to_nixtla_df` raises `IndexError` at
`settings_dict["group_by"][0]` instead of returning a table. -/
theorem claim_C3_counterexample :
    transform_to_nixtla_df idDT idResample dfRT sEmptyGB [] = none
    ∧ sEmptyGB.order_by ∈ dfRT.cols ∧ sEmptyGB.target ∈ dfRT.cols :=
  ⟨by decide, by decide, by decide⟩

/-- **C3 (amended).** For well-formed settings with a nonempty `group_by`
(the caller encodes "no grouping" as the `['__group_by']` sentinel),
`transform_to_nixtla_df` returns a frame whose columns are exactly
`unique_id, ds, y` followed by the requested exogenous columns, with every
`ds` cell produced by the timestamp conversion; `unique_id` joins multiple
grouping values with `"/"` (after string coercion), is the single grouping
column's value taken directly (no joining, no coercion), and defaults to
the constant `"1"` under the sentinel.  With the literal empty `group_by`
the call instead raises (first conjunct). -/
theorem claim_C3 (toDT : Value → Value) (rs : Resampler) (df : DF) (s : Settings)
    (exog : List String) :
    (s.group_by = [] → transform_to_nixtla_df toDT rs df s exog = none)
    ∧ (1 < s.group_by.length → s.group_by.Nodup →
        s.order_by ∈ df.cols → s.target ∈ df.cols → (∀ g ∈ s.group_by, g ∈ df.cols) →
        s.order_by ∉ s.group_by → s.target ∉ s.group_by → s.order_by ≠ s.target →
        (∀ g ∈ s.group_by, g ≠ "unique_id" ∧ g ≠ "ds" ∧ g ≠ "y" ∧ g ≠ "ignore this") →
        (s.order_by ≠ "unique_id" ∧ s.order_by ≠ "y" ∧ s.order_by ≠ "ignore this") →
        (s.target ≠ "unique_id" ∧ s.target ≠ "ds" ∧ s.target ≠ "ignore this") →
        "unique_id" ∉ df.cols → "ignore this" ∉ df.cols →
        (∀ e ∈ exog, e ∈ df.cols ∧ e ≠ "unique_id" ∧ e ≠ "ds" ∧ e ≠ "y"
          ∧ e ∉ s.group_by ∧ e ≠ s.order_by ∧ e ≠ s.target) →
        ∃ odf, transform_to_nixtla_df toDT rs df s exog = some odf
          ∧ odf.cols = ["unique_id", "ds", "y"] ++ exog
          ∧ (∀ r ∈ odf.rows, ∃ k ∈ groupKeys df s.group_by,
              rget r "unique_id" = Value.str (pyJoin "/" (k.map Value.toStr)))
          ∧ (∀ r ∈ odf.rows, ∃ v, rget r "ds" = toDT v))
    ∧ (∀ g, s.group_by = [g] → g ≠ "__group_by" →
        s.order_by ∈ df.cols → s.target ∈ df.cols → g ∈ df.cols →
        s.order_by ≠ g → s.target ≠ g → s.order_by ≠ s.target →
        (∀ e ∈ exog, e ∈ df.cols ∧ e ≠ "unique_id" ∧ e ≠ "ds" ∧ e ≠ "y"
          ∧ e ≠ g ∧ e ≠ s.order_by ∧ e ≠ s.target) →
        ∃ odf, transform_to_nixtla_df toDT rs df s exog = some odf
          ∧ odf.cols = ["unique_id", "ds", "y"] ++ exog
          ∧ (∀ r ∈ odf.rows, ∃ r0 ∈ keyedRows df [g], rget r "unique_id" = rget r0 g)
          ∧ (∀ r ∈ odf.rows, ∃ v, rget r "ds" = toDT v))
    ∧ (s.group_by = ["__group_by"] →
        s.order_by ∈ df.cols → s.target ∈ df.cols → s.order_by ≠ s.target →
        "__group_by" ∉ df.cols → "unique_id" ∉ df.cols →
        (∀ r ∈ df.rows, ∀ p ∈ r, p.1 ∈ df.cols) →
        (∀ r ∈ df.rows, ∃ p ∈ r, p.1 = s.order_by) →
        (∀ e ∈ exog, e ∈ df.cols ∧ e ≠ "unique_id" ∧ e ≠ s.order_by ∧ e ≠ s.target) →
        ∃ odf, transform_to_nixtla_df toDT rs df s exog = some odf
          ∧ odf.cols = ["unique_id", "ds", "y"] ++ exog
          ∧ (∀ r ∈ odf.rows, rget r "unique_id" = Value.str "1")
          ∧ (∀ r ∈ odf.rows, ∃ v, rget r "ds" = toDT v)) := by
  refine ⟨?_, ?_, ?_, ?_⟩
  · intro hgb
    unfold transform_to_nixtla_df
    have hcond1 : ¬(s.group_by ≠ [] ∧ s.group_by ≠ ["__group_by"]) := by
      rw [hgb]
      simp
    have hnotlen : ¬(1 < s.group_by.length) := by
      rw [hgb]
      simp
    rw [if_neg hcond1, obind_some]
    simp only [hnotlen, if_false, hgb]
    rfl
  · intro hlen hnd ho ht hg hog htg hot hgres hores htres huid hign hexog
    refine ⟨_, transform_multi_closed toDT rs df s exog hlen hnd ho ht hg hog htg hot
      hgres hores htres huid hign hexog, rfl, ?_, ?_⟩
    · intro r hr
      obtain ⟨k, hk, hrow⟩ := List.mem_flatMap.mp hr
      obtain ⟨tv, _, rfl⟩ := List.mem_map.mp hrow
      exact ⟨k, hk, rget_cons_eq _ _ _⟩
    · intro r hr
      obtain ⟨k, hk, hrow⟩ := List.mem_flatMap.mp hr
      obtain ⟨tv, _, rfl⟩ := List.mem_map.mp hrow
      refine ⟨tv.1, ?_⟩
      rw [rget_cons_ne (by decide) _ _, rget_cons_eq]
  · intro g hgb hsent ho ht hgc hog htg hot hexog
    refine ⟨_, transform_single_closed toDT rs df s exog g hgb hsent ho ht hgc hog htg hot
      hexog, rfl, ?_, ?_⟩
    · intro r hr
      obtain ⟨k, hk, hrow⟩ := List.mem_flatMap.mp hr
      obtain ⟨tv, _, rfl⟩ := List.mem_map.mp hrow
      obtain ⟨r0, hr0, hkr⟩ := groupKeys_mem df [g] k hk
      refine ⟨r0, hr0, ?_⟩
      rw [rget_cons_eq, hkr]
      rfl
    · intro r hr
      obtain ⟨k, hk, hrow⟩ := List.mem_flatMap.mp hr
      obtain ⟨tv, _, rfl⟩ := List.mem_map.mp hrow
      refine ⟨tv.1, ?_⟩
      rw [rget_cons_ne ?hne _ _, rget_cons_eq]
      case hne =>
        intro h
        obtain ⟨r0, hr0, hkr⟩ := groupKeys_mem df [g] k hk
        exact absurd h (by decide)
  · intro hgb ho ht hot hsgb huid hkeys horder hexog
    exact transform_sentinel_props toDT rs df s exog hgb ho ht hot hsgb huid hkeys
      horder hexog

/-- **C3 witness:** the two-column grouping and sentinel instances on a
concrete wide table. -/
theorem claim_C3_witness :
    ((transform_to_nixtla_df idDT idResample dfRT sSlash []).map DF.cols
        = some ["unique_id", "ds", "y"])
    ∧ ((transform_to_nixtla_df idDT idResample dfRT sSentinel []).map DF.cols
        = some ["unique_id", "ds", "y"])
    ∧ (transform_to_nixtla_df idDT idResample dfRT sSentinel []).map
        (fun odf => colVals odf "unique_id") = some [Value.str "1", Value.str "1"] := by
  obtain ⟨odf1, he1, hc1, _, _⟩ := (claim_C3 idDT idResample dfRT sSlash []).2.1
    (by decide) (by decide) (by decide) (by decide) (by decide) (by decide) (by decide)
    (by decide) (by decide) (by decide) (by decide) (by decide) (by decide) (by decide)
  obtain ⟨odf2, he2, hc2, hu2, _⟩ := (claim_C3 idDT idResample dfRT sSentinel []).2.2.2
    (by decide) (by decide) (by decide) (by decide) (by decide) (by decide) (by decide)
    (by decide) (by decide)
  refine ⟨?_, ?_, by decide⟩
  · rw [he1]
    simp [hc1]
  · rw [he2]
    simp [hc2]

/-- A non-missing read pins a key of the row. -/
theorem rget_ne_nan_key_mem {r : Row} {c : String} (h : rget r c ≠ Value.nan) :
    ∃ q ∈ r, q.1 = c := by
  unfold rget at h
  cases hf : r.find? (fun p => p.1 == c) with
  | none => rw [hf] at h; exact absurd rfl h
  | some q =>
    refine ⟨q, List.mem_of_find?_eq_some hf, ?_⟩
    have := List.find?_some hf
    simpa using this

/-- The `enumerate`-driven split-column entries are the zip of the grouping
columns with the corresponding parts. -/
theorem enumFrom_splitEntries :
    ∀ (gb : List String) (n : Nat) (allparts : List String),
      n + gb.length ≤ allparts.length →
      (List.enumFrom n gb).map (fun p => (p.2, Value.str (allparts.getD p.1 "")))
        = (gb.zip (allparts.drop n)).map (fun q => (q.1, Value.str q.2)) := by
  intro gb
  induction gb with
  | nil => intro n allparts _; rfl
  | cons g gb' ih =>
    intro n allparts hle
    have hn : n < allparts.length := by
      simp only [List.length_cons] at hle
      omega
    rw [show List.enumFrom n (g :: gb') = (n, g) :: List.enumFrom (n + 1) gb' from rfl]
    rw [List.map_cons, List.drop_eq_getElem_cons hn, List.zip_cons_cons, List.map_cons]
    have hgd : allparts.getD n "" = allparts[n] := by
      rw [List.getD_eq_getElem?_getD, List.getElem?_eq_getElem hn]
      rfl
    rw [hgd, ih (n + 1) allparts (by simp only [List.length_cons] at hle; omega)]

/-- The `for i, group in enumerate(group_by)` loop of
`get_results_from_nixtla_df`: with distinct fresh group columns and enough
split parts in every row's `unique_id`, it appends one split-value entry per
grouping column to every row. -/
theorem foldSplit :
    ∀ (gs : List (Nat × String)) (d : DF),
      (gs.map Prod.snd).Nodup →
      (∀ p ∈ gs, ∀ r ∈ d.rows, ∀ q ∈ r, q.1 ≠ p.2) →
      (∀ p ∈ gs, ¬(d.cols.contains p.2 = true)) →
      (∀ p ∈ gs, ∀ r ∈ d.rows, ∃ u, rget r "unique_id" = Value.str u
        ∧ p.1 < (pySplit '/' u).length) →
      gs.foldlM (fun d p => splitCol d p.1 p.2) d
        = some { cols := d.cols ++ gs.map Prod.snd,
                 rows := d.rows.map (fun r => r ++ gs.map (fun p => (p.2, splitVal r p.1))) } := by
  intro gs
  induction gs with
  | nil =>
    intro d _ _ _ _
    show some d = _
    refine congrArg some ?_
    calc d = ⟨d.cols, d.rows⟩ := rfl
      _ = ⟨d.cols ++ [], d.rows.map (fun r => r ++ [])⟩ := by
          rw [List.append_nil]
          congr 1
          have : d.rows.map (fun r => r ++ ([] : Row)) = d.rows.map id :=
            mapCongrMem (fun r _ => List.append_nil r)
          rw [this, List.map_id]
  | cons p gs' ih =>
    intro d hnd hfresh hcols hidx
    have hnd' : (gs'.map Prod.snd).Nodup := by
      rw [List.map_cons] at hnd
      exact (List.nodup_cons.mp hnd).2
    have hp2 : p.2 ∉ gs'.map Prod.snd := by
      rw [List.map_cons] at hnd
      exact (List.nodup_cons.mp hnd).1
    have hstep : splitCol d p.1 p.2 = some
        { cols := d.cols ++ [p.2],
          rows := d.rows.map (fun r => r ++ [(p.2, splitVal r p.1)]) } := by
      unfold splitCol
      have hmap := optMapM_map
        (fun r =>
          match rget r "unique_id" with
          | Value.str u =>
            match (pySplit '/' u).get? p.1 with
            | some part => some (rowSet r p.2 (Value.str part))
            | none => none
          | _ => none)
        (fun r => r ++ [(p.2, splitVal r p.1)]) d.rows ?_
      · rw [hmap, obind_some]
        have hc : d.cols.contains p.2 = false := by
          have := hcols p (List.mem_cons_self _ _)
          simpa using this
        rw [hc]
        rfl
      · intro r hr
        obtain ⟨u, hu, hlt⟩ := hidx p (List.mem_cons_self _ _) r hr
        have hget : (pySplit '/' u).get? p.1 = some ((pySplit '/' u).getD p.1 "") := by
          rw [List.getD_eq_getElem?_getD, ← List.get?_eq_getElem?,
            List.get?_eq_get hlt]
          rfl
        have hsv : splitVal r p.1 = Value.str ((pySplit '/' u).getD p.1 "") := by
          unfold splitVal
          rw [hu]
          rfl
        show (match rget r "unique_id" with
          | Value.str u =>
            match (pySplit '/' u).get? p.1 with
            | some part => some (rowSet r p.2 (Value.str part))
            | none => none
          | _ => none) = some (r ++ [(p.2, splitVal r p.1)])
        rw [hu]
        show (match (pySplit '/' u).get? p.1 with
          | some part => some (rowSet r p.2 (Value.str part))
          | none => none) = some (r ++ [(p.2, splitVal r p.1)])
        rw [hget]
        show some (rowSet r p.2 (Value.str ((pySplit '/' u).getD p.1 "")))
          = some (r ++ [(p.2, splitVal r p.1)])
        rw [← hsv]
        rw [rowSet_not_mem (fun q hq => hfresh p (List.mem_cons_self _ _) r hr q hq) _]
    rw [List.foldlM_cons, hstep, obind_some]
    rw [ih _ hnd' ?_ ?_ ?_]
    · refine congrArg some ?_
      congr 1
      · rw [List.map_cons, List.append_cons, List.append_assoc]
        simp
      · rw [List.map_map]
        apply mapCongrMem
        intro r hr
        simp only [Function.comp]
        have hkeymem : ∃ q ∈ r, q.1 = "unique_id" := by
          obtain ⟨u, hu, _⟩ := hidx p (List.mem_cons_self _ _) r hr
          exact rget_ne_nan_key_mem (by rw [hu]; intro h; cases h)
        have hsv2 : ∀ i : Nat, splitVal (r ++ [(p.2, splitVal r p.1)]) i = splitVal r i := by
          intro i
          unfold splitVal
          rw [rget_append_of_key_mem _ _ hkeymem]
        rw [List.append_assoc]
        congr 1
        rw [List.map_cons]
        have : gs'.map (fun q => (q.2, splitVal (r ++ [(p.2, splitVal r p.1)]) q.1))
            = gs'.map (fun q => (q.2, splitVal r q.1)) :=
          mapCongrMem (fun q _ => by rw [hsv2 q.1])
        rw [this]
        rfl
    · intro q hq r' hr'
      obtain ⟨r, hr, rfl⟩ := List.mem_map.mp hr'
      intro e he
      rcases List.mem_append.mp he with he1 | he2
      · exact hfresh q (List.mem_cons_of_mem _ hq) r hr e he1
      · have hee : e = (p.2, splitVal r p.1) := by simpa using he2
        rw [hee]
        intro hcontra
        have hc2 : p.2 = q.2 := hcontra
        exact hp2 (hc2 ▸ List.mem_map_of_mem Prod.snd hq)
    · intro q hq
      have h1 := hcols q (List.mem_cons_of_mem _ hq)
      intro hcontra
      have hmem : q.2 ∈ d.cols ++ [p.2] := by simpa using hcontra
      rcases List.mem_append.mp hmem with hm | hm
      · exact h1 (by simpa using hm)
      · have hq2 : q.2 = p.2 := by simpa using hm
        exact hp2 (hq2 ▸ List.mem_map_of_mem Prod.snd hq)
    · intro q hq r' hr'
      obtain ⟨r, hr, rfl⟩ := List.mem_map.mp hr'
      obtain ⟨u, hu, hlt⟩ := hidx q (List.mem_cons_of_mem _ hq) r hr
      refine ⟨u, ?_, hlt⟩
      have hkeymem : ∃ qq ∈ r, qq.1 = "unique_id" :=
        rget_ne_nan_key_mem (by rw [hu]; intro h; cases h)
      rw [rget_append_of_key_mem _ _ hkeymem]
      exact hu

/-- Closed form of the round trip (normalize with `transform_to_nixtla_df`,
then convert back with `get_results_from_nixtla_df`) for two or more
grouping columns over a well-formed wide table whose grouping values
contain no `"/"`: the output carries the original order column first, then
`y` and the exogenous columns (`NaN` after resampling), then one
string-valued column per grouping column holding that group's stringified
key component, one row per resampled point of each group. -/
theorem roundtrip_multi_closed
    (toDT : Value → Value) (rs : Resampler) (df : DF) (s : Settings) (exog : List String)
    (hlen : 1 < s.group_by.length)
    (hnd : s.group_by.Nodup)
    (ho : s.order_by ∈ df.cols) (ht : s.target ∈ df.cols) (hg : ∀ g ∈ s.group_by, g ∈ df.cols)
    (hog : s.order_by ∉ s.group_by) (htg : s.target ∉ s.group_by) (hot : s.order_by ≠ s.target)
    (hgres : ∀ g ∈ s.group_by, g ≠ "unique_id" ∧ g ≠ "ds" ∧ g ≠ "y" ∧ g ≠ "ignore this")
    (hores : s.order_by ≠ "unique_id" ∧ s.order_by ≠ "y" ∧ s.order_by ≠ "ignore this")
    (htres : s.target ≠ "unique_id" ∧ s.target ≠ "ds" ∧ s.target ≠ "ignore this")
    (huid : "unique_id" ∉ df.cols) (hign : "ignore this" ∉ df.cols)
    (hexog : ∀ e ∈ exog, e ∈ df.cols ∧ e ≠ "unique_id" ∧ e ≠ "ds" ∧ e ≠ "y"
        ∧ e ∉ s.group_by ∧ e ≠ s.order_by ∧ e ≠ s.target)
    (hslash : ∀ r ∈ df.rows, ∀ g ∈ s.group_by, '/' ∉ ((rget r g).toStr).data) :
    roundTrip toDT rs df s exog = some
      { cols := [s.order_by, "y"] ++ exog ++ s.group_by,
        rows := (groupKeys df s.group_by).flatMap (fun k =>
          (rs s.frequency ((groupRows df s.group_by k).map
              (fun r => (toDT (rget r s.order_by), rget r s.target)))).map
            (fun tv =>
              (s.order_by, toDT tv.1) :: ("y", tv.2) :: exog.map (fun e => (e, Value.nan))
                ++ (s.group_by.zip (k.map Value.toStr)).map
                    (fun q => (q.1, Value.str q.2)))) } := by
  unfold roundTrip
  rw [transform_multi_closed toDT rs df s exog hlen hnd ho ht hg hog htg hot
    hgres hores htres huid hign hexog, obind_some]
  unfold get_results_from_nixtla_df
  rw [if_pos (List.mem_append_left _ (List.mem_cons_self _ _))]
  have h0len : 0 < s.group_by.length := Nat.lt_of_lt_of_le Nat.zero_lt_one (Nat.le_of_lt hlen)
  simp only [h0len, hlen, if_true]
  have hfold := foldSplit s.group_by.enum
    { cols := ["unique_id", "ds", "y"] ++ exog,
      rows := (groupKeys df s.group_by).flatMap (fun k =>
        (rs s.frequency ((groupRows df s.group_by k).map
            (fun r => (toDT (rget r s.order_by), rget r s.target)))).map
          (fun tv =>
            ("unique_id", Value.str (pyJoin "/" (k.map Value.toStr)))
              :: ("ds", toDT tv.1) :: ("y", tv.2)
              :: exog.map (fun e => (e, Value.nan)))) }
    (by rw [List.enum_map_snd]; exact hnd) ?hfresh ?hcols ?hidx
  case hfresh =>
    intro p hp r hr q hq
    have hpg : p.2 ∈ s.group_by := by
      rw [← List.enum_map_snd s.group_by]
      exact List.mem_map_of_mem _ hp
    obtain ⟨hg1, hg2, hg3, _⟩ := hgres p.2 hpg
    obtain ⟨k, hk, hrow⟩ := List.mem_flatMap.mp hr
    obtain ⟨tv, _, rfl⟩ := List.mem_map.mp hrow
    rcases List.mem_cons.mp hq with rfl | hq1
    · exact Ne.symm hg1
    · rcases List.mem_cons.mp hq1 with rfl | hq2
      · exact Ne.symm hg2
      · rcases List.mem_cons.mp hq2 with rfl | hq3
        · exact Ne.symm hg3
        · obtain ⟨e, he, rfl⟩ := List.mem_map.mp hq3
          intro hcontra
          have hc2 : e = p.2 := hcontra
          apply (hexog e he).2.2.2.2.1
          rw [hc2]
          exact hpg
  case hcols =>
    intro p hp
    have hpg : p.2 ∈ s.group_by := by
      rw [← List.enum_map_snd s.group_by]
      exact List.mem_map_of_mem _ hp
    obtain ⟨hg1, hg2, hg3, _⟩ := hgres p.2 hpg
    intro hcontra
    have hmem : p.2 ∈ ["unique_id", "ds", "y"] ++ exog := by simpa using hcontra
    rcases List.mem_append.mp hmem with hm | hm
    · rcases List.mem_cons.mp hm with h | h
      · exact hg1 h
      · rcases List.mem_cons.mp h with h2 | h2
        · exact hg2 h2
        · rcases List.mem_cons.mp h2 with h3 | h3
          · exact hg3 h3
          · simp at h3
    · exact (hexog p.2 hm).2.2.2.2.1 hpg
  case hidx =>
    intro p hp r hr
    obtain ⟨k, hk, hrow⟩ := List.mem_flatMap.mp hr
    obtain ⟨tv, _, rfl⟩ := List.mem_map.mp hrow
    refine ⟨pyJoin "/" (k.map Value.toStr), rget_cons_eq _ _ _, ?_⟩
    obtain ⟨r0, hr0, hkr⟩ := groupKeys_mem df s.group_by k hk
    have hr0df : r0 ∈ df.rows := List.mem_of_mem_filter hr0
    have hsplit : pySplit '/' (pyJoin "/" (k.map Value.toStr)) = k.map Value.toStr := by
      apply pySplit_pyJoin
      · intro hemp
        have hklen : k.length = s.group_by.length := by rw [hkr, List.length_map]
        have : k = [] := List.map_eq_nil_iff.mp hemp
        rw [this] at hklen
        simp at hklen
        omega
      · intro pstr hpstr
        obtain ⟨v, hv, rfl⟩ := List.mem_map.mp hpstr
        rw [hkr] at hv
        obtain ⟨g', hg', rfl⟩ := List.mem_map.mp hv
        exact hslash r0 hr0df g' hg'
    rw [hsplit, List.length_map]
    have hklen : k.length = s.group_by.length := by rw [hkr, List.length_map]
    rw [hklen]
    have := List.mem_enumFrom hp
    simpa using this.2.1
  rw [hfold, obind_some]
  simp only [DF.dropCol, DF.renameWith]
  rw [List.enum_map_snd]
  refine congrArg some ?_
  congr 1
  · show (((["unique_id", "ds", "y"] ++ exog) ++ s.group_by).filter
        (fun x => !(x == "unique_id"))).map (fun c => if c = "ds" then s.order_by else c)
      = [s.order_by, "y"] ++ exog ++ s.group_by
    rw [List.filter_append, List.filter_append]
    have hf1 : (["unique_id", "ds", "y"] : List String).filter (fun x => !(x == "unique_id"))
        = ["ds", "y"] := by decide
    have hf2 : exog.filter (fun x => !(x == "unique_id")) = exog := by
      rw [List.filter_eq_self]
      intro e he
      simpa using (hexog e he).2.1
    have hf3 : s.group_by.filter (fun x => !(x == "unique_id")) = s.group_by := by
      rw [List.filter_eq_self]
      intro g hgm
      simpa using (hgres g hgm).1
    rw [hf1, hf2, hf3, List.map_append, List.map_append]
    have hm1 : (["ds", "y"] : List String).map (fun c => if c = "ds" then s.order_by else c)
        = [s.order_by, "y"] := by
      simp
    have hm2 : exog.map (fun c => if c = "ds" then s.order_by else c) = exog := by
      have : exog.map (fun c => if c = "ds" then s.order_by else c) = exog.map id :=
        mapCongrMem (fun e he => by rw [if_neg (hexog e he).2.2.1]; rfl)
      rw [this, List.map_id]
    have hm3 : s.group_by.map (fun c => if c = "ds" then s.order_by else c) = s.group_by := by
      have : s.group_by.map (fun c => if c = "ds" then s.order_by else c) = s.group_by.map id :=
        mapCongrMem (fun g hgm => by rw [if_neg (hgres g hgm).2.1]; rfl)
      rw [this, List.map_id]
    rw [hm1, hm2, hm3]
  · simp only [List.map_map]
    rw [mapFlatMap]
    apply flatMapCongrMem
    intro k hk
    rw [List.map_map]
    apply mapCongrMem
    intro tv _
    simp only [Function.comp]
    obtain ⟨r0, hr0, hkr⟩ := groupKeys_mem df s.group_by k hk
    have hr0df : r0 ∈ df.rows := List.mem_of_mem_filter hr0
    have hklen : k.length = s.group_by.length := by rw [hkr, List.length_map]
    have hsplit : pySplit '/' (pyJoin "/" (k.map Value.toStr)) = k.map Value.toStr := by
      apply pySplit_pyJoin
      · intro hemp
        have : k = [] := List.map_eq_nil_iff.mp hemp
        rw [this] at hklen
        simp at hklen
        omega
      · intro pstr hpstr
        obtain ⟨v, hv, rfl⟩ := List.mem_map.mp hpstr
        rw [hkr] at hv
        obtain ⟨g', hg', rfl⟩ := List.mem_map.mp hv
        exact hslash r0 hr0df g' hg'
    have hsv : ∀ i : Nat,
        splitVal (("unique_id", Value.str (pyJoin "/" (k.map Value.toStr)))
            :: ("ds", toDT tv.1) :: ("y", tv.2) :: exog.map (fun e => (e, Value.nan))) i
          = Value.str ((k.map Value.toStr).getD i "") := by
      intro i
      unfold splitVal
      rw [rget_cons_eq]
      show Value.str ((pySplit '/' (pyJoin "/" (k.map Value.toStr))).getD i "") = _
      rw [hsplit]
    have hentries : s.group_by.enum.map (fun p =>
        (p.2, splitVal (("unique_id", Value.str (pyJoin "/" (k.map Value.toStr)))
            :: ("ds", toDT tv.1) :: ("y", tv.2) :: exog.map (fun e => (e, Value.nan))) p.1))
        = (s.group_by.zip (k.map Value.toStr)).map (fun q => (q.1, Value.str q.2)) := by
      have h1 : s.group_by.enum.map (fun p =>
          (p.2, splitVal (("unique_id", Value.str (pyJoin "/" (k.map Value.toStr)))
              :: ("ds", toDT tv.1) :: ("y", tv.2) :: exog.map (fun e => (e, Value.nan))) p.1))
          = s.group_by.enum.map (fun p => (p.2, Value.str ((k.map Value.toStr).getD p.1 ""))) :=
        mapCongrMem (fun p _ => by rw [hsv p.1])
      rw [h1]
      have h2 := enumFrom_splitEntries s.group_by 0 (k.map Value.toStr)
        (by rw [List.length_map, hklen]; omega)
      rw [show List.enumFrom 0 s.group_by = s.group_by.enum from rfl] at h2
      rw [h2, List.drop_zero]
    rw [hentries]
    rw [List.filter_append]
    have hfe : (exog.map (fun e => (e, Value.nan))).filter (fun p => !(p.1 == "unique_id"))
        = exog.map (fun e => (e, Value.nan)) := by
      rw [List.filter_eq_self]
      intro p hp
      obtain ⟨e, he, rfl⟩ := List.mem_map.mp hp
      simpa using (hexog e he).2.1
    have hfz : ((s.group_by.zip (k.map Value.toStr)).map
        (fun q => (q.1, Value.str q.2))).filter (fun p => !(p.1 == "unique_id"))
        = (s.group_by.zip (k.map Value.toStr)).map (fun q => (q.1, Value.str q.2)) := by
      rw [List.filter_eq_self]
      intro p hp
      obtain ⟨q, hq, rfl⟩ := List.mem_map.mp hp
      simpa using (hgres q.1 (List.of_mem_zip hq).1).1
    have hffront : ((("unique_id", Value.str (pyJoin "/" (k.map Value.toStr)))
        :: ("ds", toDT tv.1) :: ("y", tv.2) :: exog.map (fun e => (e, Value.nan))).filter
          (fun p => !(p.1 == "unique_id")))
        = ("ds", toDT tv.1) :: ("y", tv.2) :: exog.map (fun e => (e, Value.nan)) := by
      rw [List.filter_cons_of_neg (by simp), List.filter_cons_of_pos (by simp),
        List.filter_cons_of_pos (by simp), hfe]
    rw [hffront, hfz]
    rw [List.map_append]
    simp only [List.map_cons]
    rw [if_true, if_neg (show ¬("y" : String) = "ds" by decide)]
    have hme : (exog.map (fun e => (e, Value.nan))).map
        (fun p => (if p.1 = "ds" then s.order_by else p.1, p.2))
        = exog.map (fun e => (e, Value.nan)) := by
      rw [List.map_map]
      apply mapCongrMem
      intro e he
      simp only [Function.comp]
      rw [if_neg (hexog e he).2.2.1]
    have hmz : ((s.group_by.zip (k.map Value.toStr)).map (fun q => (q.1, Value.str q.2))).map
        (fun p => (if p.1 = "ds" then s.order_by else p.1, p.2))
        = (s.group_by.zip (k.map Value.toStr)).map (fun q => (q.1, Value.str q.2)) := by
      rw [List.map_map]
      apply mapCongrMem
      intro q hq
      simp only [Function.comp]
      rw [if_neg (hgres q.1 (List.of_mem_zip hq).1).2.1]
    rw [hme, hmz]

/-- Closed form of the round trip for exactly one grouping column: the
single grouping value travels through `unique_id` unchanged (no joining, no
string coercion) and is written back verbatim into the grouping column. -/
theorem roundtrip_single_closed
    (toDT : Value → Value) (rs : Resampler) (df : DF) (s : Settings) (exog : List String)
    (g : String) (hgb : s.group_by = [g]) (hsent : g ≠ "__group_by")
    (hguid : g ≠ "unique_id") (hgds : g ≠ "ds") (hgy : g ≠ "y")
    (ho : s.order_by ∈ df.cols) (ht : s.target ∈ df.cols) (hgc : g ∈ df.cols)
    (hog : s.order_by ≠ g) (htg : s.target ≠ g) (hot : s.order_by ≠ s.target)
    (hexog : ∀ e ∈ exog, e ∈ df.cols ∧ e ≠ "unique_id" ∧ e ≠ "ds" ∧ e ≠ "y"
        ∧ e ≠ g ∧ e ≠ s.order_by ∧ e ≠ s.target) :
    roundTrip toDT rs df s exog = some
      { cols := [s.order_by, "y"] ++ exog ++ [g],
        rows := (groupKeys df [g]).flatMap (fun k =>
          (rs s.frequency ((groupRows df [g] k).map
              (fun r => (toDT (rget r s.order_by), rget r s.target)))).map
            (fun tv =>
              (s.order_by, toDT tv.1) :: ("y", tv.2) :: exog.map (fun e => (e, Value.nan))
                ++ [(g, k.getD 0 Value.nan)])) } := by
  unfold roundTrip
  rw [transform_single_closed toDT rs df s exog g hgb hsent ho ht hgc hog htg hot hexog,
    obind_some]
  unfold get_results_from_nixtla_df
  rw [if_pos (List.mem_append_left _ (List.mem_cons_self _ _))]
  have h0len : 0 < s.group_by.length := by rw [hgb]; simp
  have hnotlen : ¬(1 < s.group_by.length) := by rw [hgb]; simp
  simp only [h0len, if_true, hnotlen, if_false, hgb, obind_some]
  have hgnot : g ∉ (["unique_id", "ds", "y"] ++ exog : List String) := by
    intro hmem
    rcases List.mem_append.mp hmem with hm | hm
    · rcases List.mem_cons.mp hm with h | h
      · exact hguid h
      · rcases List.mem_cons.mp h with h2 | h2
        · exact hgds h2
        · rcases List.mem_cons.mp h2 with h3 | h3
          · exact hgy h3
          · simp at h3
    · exact (hexog g hm).2.2.2.2.1 rfl
  have hgcont : ¬((["unique_id", "ds", "y"] ++ exog : List String).contains g = true) := by
    simpa using hgnot
  simp only [DF.setCol, DF.dropCol, DF.renameWith]
  rw [if_neg hgcont]
  refine congrArg some ?_
  congr 1
  · show (((["unique_id", "ds", "y"] ++ exog) ++ [g]).filter
        (fun x => !(x == "unique_id"))).map (fun c => if c = "ds" then s.order_by else c)
      = [s.order_by, "y"] ++ exog ++ [g]
    rw [List.filter_append, List.filter_append]
    have hf1 : (["unique_id", "ds", "y"] : List String).filter (fun x => !(x == "unique_id"))
        = ["ds", "y"] := by decide
    have hf2 : exog.filter (fun x => !(x == "unique_id")) = exog := by
      rw [List.filter_eq_self]
      intro e he
      simpa using (hexog e he).2.1
    have hf3 : ([g] : List String).filter (fun x => !(x == "unique_id")) = [g] := by
      rw [List.filter_eq_self]
      intro c hc
      rw [List.mem_singleton.mp hc]
      simpa using hguid
    rw [hf1, hf2, hf3, List.map_append, List.map_append]
    have hm1 : (["ds", "y"] : List String).map (fun c => if c = "ds" then s.order_by else c)
        = [s.order_by, "y"] := by
      simp
    have hm2 : exog.map (fun c => if c = "ds" then s.order_by else c) = exog := by
      have h2 : exog.map (fun c => if c = "ds" then s.order_by else c) = exog.map id :=
        mapCongrMem (fun e he => by rw [if_neg (hexog e he).2.2.1]; rfl)
      rw [h2, List.map_id]
    have hm3 : ([g] : List String).map (fun c => if c = "ds" then s.order_by else c) = [g] := by
      simp only [List.map_cons, List.map_nil]
      rw [if_neg hgds]
    rw [hm1, hm2, hm3]
  · simp only [List.map_map]
    rw [mapFlatMap]
    apply flatMapCongrMem
    intro k hk
    rw [List.map_map]
    apply mapCongrMem
    intro tv _
    simp only [Function.comp]
    have hfresh : ∀ p ∈ ("unique_id", k.getD 0 Value.nan)
        :: ("ds", toDT tv.1) :: ("y", tv.2) :: exog.map (fun e => (e, Value.nan)),
        p.1 ≠ g := by
      intro p hp
      rcases List.mem_cons.mp hp with rfl | hp1
      · exact fun h => hguid h.symm
      · rcases List.mem_cons.mp hp1 with rfl | hp2
        · exact fun h => hgds h.symm
        · rcases List.mem_cons.mp hp2 with rfl | hp3
          · exact fun h => hgy h.symm
          · obtain ⟨e, he, rfl⟩ := List.mem_map.mp hp3
            exact (hexog e he).2.2.2.2.1
    rw [rowSet_not_mem hfresh, rget_cons_eq]
    rw [List.filter_append]
    have hfe : (exog.map (fun e => (e, Value.nan))).filter (fun p => !(p.1 == "unique_id"))
        = exog.map (fun e => (e, Value.nan)) := by
      rw [List.filter_eq_self]
      intro p hp
      obtain ⟨e, he, rfl⟩ := List.mem_map.mp hp
      simpa using (hexog e he).2.1
    have hffront : ((("unique_id", k.getD 0 Value.nan)
        :: ("ds", toDT tv.1) :: ("y", tv.2) :: exog.map (fun e => (e, Value.nan))).filter
          (fun p => !(p.1 == "unique_id")))
        = ("ds", toDT tv.1) :: ("y", tv.2) :: exog.map (fun e => (e, Value.nan)) := by
      rw [List.filter_cons_of_neg (by simp), List.filter_cons_of_pos (by simp),
        List.filter_cons_of_pos (by simp), hfe]
    have hfg : (([(g, k.getD 0 Value.nan)] : Row)).filter (fun p => !(p.1 == "unique_id"))
        = [(g, k.getD 0 Value.nan)] := by
      rw [List.filter_cons_of_pos (by simpa using hguid)]
      simp only [List.filter_nil]
    rw [hffront, hfg]
    rw [List.map_append]
    simp only [List.map_cons]
    rw [if_true, if_neg (show ¬("y" : String) = "ds" by decide)]
    have hme : (exog.map (fun e => (e, Value.nan))).map
        (fun p => (if p.1 = "ds" then s.order_by else p.1, p.2))
        = exog.map (fun e => (e, Value.nan)) := by
      rw [List.map_map]
      apply mapCongrMem
      intro e he
      simp only [Function.comp]
      rw [if_neg (hexog e he).2.2.1]
    rw [hme, if_neg hgds]
    simp only [List.map_nil]

/-- With no missing grouping data, the stringified grouping tuples of a
frame are exactly the stringified `groupby` keys. -/
theorem tupleStrs_iff_keys (df : DF) (gb : List String)
    (hkeyed : keyedRows df gb = df.rows) (t : List String) :
    t ∈ tupleStrs df gb ↔ ∃ k ∈ groupKeys df gb, t = k.map Value.toStr := by
  constructor
  · intro ht
    obtain ⟨r, hr, rfl⟩ := List.mem_map.mp ht
    refine ⟨gb.map (rget r), ?_, ?_⟩
    · unfold groupKeys
      rw [mem_firstDedup, hkeyed]
      exact List.mem_map.mpr ⟨r, hr, rfl⟩
    · rw [List.map_map]
      rfl
  · rintro ⟨k, hk, rfl⟩
    obtain ⟨r, hr, hkr⟩ := groupKeys_mem df gb k hk
    rw [hkeyed] at hr
    refine List.mem_map.mpr ⟨r, hr, ?_⟩
    rw [hkr, List.map_map]
    rfl

/-- Every `groupby` key owns at least one member row. -/
theorem groupRows_key_ne_nil (df : DF) (gb : List String) (k : List Value)
    (hk : k ∈ groupKeys df gb) : groupRows df gb k ≠ [] := by
  obtain ⟨r, hr, hkr⟩ := groupKeys_mem df gb k hk
  apply List.ne_nil_of_mem (a := r)
  unfold groupRows
  refine List.mem_filter.mpr ⟨hr, ?_⟩
  rw [hkr]
  exact beq_self_eq_true _

/-- **C1 (amended).** Round trip: for a well-formed wide table and settings
with a nonempty, duplicate-free `group_by` (no reserved names, the
`['__group_by']` sentinel excluded), where additionally no stringified
grouping value contains the `"/"` join delimiter, no grouping cell is
missing, and the resampler returns a nonempty series on a nonempty group,
`get_results_from_nixtla_df` after `transform_to_nixtla_df` succeeds and
restores the original order-column name, every grouping column, and the
original grouping-column value tuples as a set, up to string rendering
(dtype) and row order.  The original claim, quantified over every wide
table, fails when a grouping value itself contains `"/"` and is therefore
mis-split on the way back (see the counterexample). -/
theorem claim_C1
    (toDT : Value → Value) (rs : Resampler) (df : DF) (s : Settings) (exog : List String)
    (h0len : 0 < s.group_by.length)
    (hsent : s.group_by ≠ ["__group_by"])
    (hnd : s.group_by.Nodup)
    (ho : s.order_by ∈ df.cols) (ht : s.target ∈ df.cols) (hg : ∀ g ∈ s.group_by, g ∈ df.cols)
    (hog : s.order_by ∉ s.group_by) (htg : s.target ∉ s.group_by) (hot : s.order_by ≠ s.target)
    (hgres : ∀ g ∈ s.group_by, g ≠ "unique_id" ∧ g ≠ "ds" ∧ g ≠ "y" ∧ g ≠ "ignore this")
    (hores : s.order_by ≠ "unique_id" ∧ s.order_by ≠ "y" ∧ s.order_by ≠ "ignore this")
    (htres : s.target ≠ "unique_id" ∧ s.target ≠ "ds" ∧ s.target ≠ "ignore this")
    (huid : "unique_id" ∉ df.cols) (hign : "ignore this" ∉ df.cols)
    (hexog : ∀ e ∈ exog, e ∈ df.cols ∧ e ≠ "unique_id" ∧ e ≠ "ds" ∧ e ≠ "y"
        ∧ e ∉ s.group_by ∧ e ≠ s.order_by ∧ e ≠ s.target)
    (hslash : ∀ r ∈ df.rows, ∀ g ∈ s.group_by, '/' ∉ ((rget r g).toStr).data)
    (hnonan : ∀ r ∈ df.rows, ∀ g ∈ s.group_by, rget r g ≠ Value.nan)
    (hrs : ∀ f ser, ser ≠ [] → rs f ser ≠ []) :
    ∃ odf, roundTrip toDT rs df s exog = some odf ∧
      s.order_by ∈ odf.cols ∧ (∀ g ∈ s.group_by, g ∈ odf.cols) ∧
      ∀ t, t ∈ tupleStrs odf s.group_by ↔ t ∈ tupleStrs df s.group_by := by
  have hkeyed : keyedRows df s.group_by = df.rows := by
    unfold keyedRows
    rw [List.filter_eq_self]
    intro r hr
    rw [List.all_eq_true]
    intro c hc
    simpa using hnonan r hr c hc
  have hdfside := tupleStrs_iff_keys df s.group_by hkeyed
  have hne : ∀ k ∈ groupKeys df s.group_by,
      rs s.frequency ((groupRows df s.group_by k).map
          (fun r => (toDT (rget r s.order_by), rget r s.target))) ≠ [] := by
    intro k hk
    apply hrs
    intro hmap
    exact groupRows_key_ne_nil df s.group_by k hk (List.map_eq_nil_iff.mp hmap)
  by_cases hlen : 1 < s.group_by.length
  · refine ⟨_, roundtrip_multi_closed toDT rs df s exog hlen hnd ho ht hg hog htg hot
      hgres hores htres huid hign hexog hslash, ?_, ?_, ?_⟩
    · exact List.mem_append_left _ (List.mem_append_left _ (List.mem_cons_self _ _))
    · intro g hgm
      exact List.mem_append_right _ hgm
    · have htuple : ∀ k ∈ groupKeys df s.group_by, ∀ tv : Value × Value,
          s.group_by.map (fun c => (rget ((s.order_by, toDT tv.1) :: ("y", tv.2)
              :: exog.map (fun e => (e, Value.nan))
              ++ (s.group_by.zip (k.map Value.toStr)).map (fun q => (q.1, Value.str q.2))) c).toStr)
            = k.map Value.toStr := by
        intro k hk tv
        obtain ⟨r0, hr0, hkr⟩ := groupKeys_mem df s.group_by k hk
        have hklen : s.group_by.length = (k.map Value.toStr).length := by
          rw [List.length_map, hkr, List.length_map]
        have hpre : ∀ g ∈ s.group_by, ∀ p ∈ ((s.order_by, toDT tv.1) :: ("y", tv.2)
            :: exog.map (fun e => (e, Value.nan)) : Row), p.1 ≠ g := by
          intro g hgm p hp
          rcases List.mem_cons.mp hp with rfl | hp1
          · exact fun h => hog (by have hh : s.order_by = g := h; rw [hh]; exact hgm)
          · rcases List.mem_cons.mp hp1 with rfl | hp2
            · exact fun h => (hgres g hgm).2.2.1 (by have hh : ("y" : String) = g := h; rw [hh])
            · obtain ⟨e, he, rfl⟩ := List.mem_map.mp hp2
              exact fun h => (hexog e he).2.2.2.2.1
                (by have hh : e = g := h; rw [hh]; exact hgm)
        have hmain : s.group_by.map (fun c => rget ((s.order_by, toDT tv.1) :: ("y", tv.2)
            :: exog.map (fun e => (e, Value.nan))
            ++ (s.group_by.zip (k.map Value.toStr)).map (fun q => (q.1, Value.str q.2))) c)
            = (k.map Value.toStr).map Value.str :=
          map_rget_pre_zipstr s.group_by (k.map Value.toStr)
            ((s.order_by, toDT tv.1) :: ("y", tv.2) :: exog.map (fun e => (e, Value.nan)))
            hnd hklen hpre
        have hsplitmaps : s.group_by.map (fun c => (rget ((s.order_by, toDT tv.1) :: ("y", tv.2)
            :: exog.map (fun e => (e, Value.nan))
            ++ (s.group_by.zip (k.map Value.toStr)).map (fun q => (q.1, Value.str q.2))) c).toStr)
            = (s.group_by.map (fun c => rget ((s.order_by, toDT tv.1) :: ("y", tv.2)
              :: exog.map (fun e => (e, Value.nan))
              ++ (s.group_by.zip (k.map Value.toStr)).map
                  (fun q => (q.1, Value.str q.2))) c)).map Value.toStr := by
          rw [List.map_map]
          rfl
        rw [hsplitmaps, hmain, List.map_map]
        have hid : (k.map Value.toStr).map (Value.toStr ∘ Value.str)
            = (k.map Value.toStr).map id := mapCongrMem (fun v _ => rfl)
        rw [hid, List.map_id]
      intro t
      rw [hdfside t]
      constructor
      · intro ht'
        obtain ⟨r, hr, rfl⟩ := List.mem_map.mp ht'
        obtain ⟨k, hk, hrow⟩ := List.mem_flatMap.mp hr
        obtain ⟨tv, htv, rfl⟩ := List.mem_map.mp hrow
        exact ⟨k, hk, htuple k hk tv⟩
      · rintro ⟨k, hk, rfl⟩
        obtain ⟨tv, htv⟩ := List.exists_mem_of_ne_nil _ (hne k hk)
        refine List.mem_map.mpr ⟨_, List.mem_flatMap.mpr ⟨k, hk,
          List.mem_map.mpr ⟨tv, htv, rfl⟩⟩, (htuple k hk tv)⟩
  · obtain ⟨g, hgb⟩ : ∃ g, s.group_by = [g] := by
      rcases hgbm : s.group_by with _ | ⟨g, rest⟩
      · rw [hgbm] at h0len
        simp at h0len
      · rcases rest with _ | ⟨g2, rest2⟩
        · exact ⟨g, rfl⟩
        · rw [hgbm] at hlen
          simp at hlen
    have hgmem : g ∈ s.group_by := by
      rw [hgb]
      exact List.mem_cons_self _ _
    obtain ⟨hguid, hgds, hgy, _⟩ := hgres g hgmem
    have hsent' : g ≠ "__group_by" := by
      intro h
      apply hsent
      rw [hgb, h]
    have hog' : s.order_by ≠ g := fun h => hog (by rw [h]; exact hgmem)
    have htg' : s.target ≠ g := fun h => htg (by rw [h]; exact hgmem)
    have hexog' : ∀ e ∈ exog, e ∈ df.cols ∧ e ≠ "unique_id" ∧ e ≠ "ds" ∧ e ≠ "y"
        ∧ e ≠ g ∧ e ≠ s.order_by ∧ e ≠ s.target := by
      intro e he
      obtain ⟨h1, h2, h3, h4, h5, h6, h7⟩ := hexog e he
      exact ⟨h1, h2, h3, h4, fun h => h5 (by rw [h]; exact hgmem), h6, h7⟩
    rw [hgb] at hdfside hne
    refine ⟨_, roundtrip_single_closed toDT rs df s exog g hgb hsent' hguid hgds hgy
      ho ht (hg g hgmem) hog' htg' hot hexog', ?_, ?_, ?_⟩
    · exact List.mem_append_left _ (List.mem_append_left _ (List.mem_cons_self _ _))
    · intro g' hg'
      rw [hgb] at hg'
      rw [List.mem_singleton.mp hg']
      exact List.mem_append_right _ (List.mem_cons_self _ _)
    · have htuple : ∀ k ∈ groupKeys df [g], ∀ tv : Value × Value,
          [g].map (fun c => (rget ((s.order_by, toDT tv.1) :: ("y", tv.2)
              :: exog.map (fun e => (e, Value.nan)) ++ [(g, k.getD 0 Value.nan)]) c).toStr)
            = k.map Value.toStr := by
        intro k hk tv
        obtain ⟨r0, hr0, hkr⟩ := groupKeys_mem df [g] k hk
        have hkr' : k = [rget r0 g] := by
          rw [hkr]
          rfl
        have hgetD : k.getD 0 Value.nan = rget r0 g := by
          rw [hkr']
          rfl
        have hrget : rget ((s.order_by, toDT tv.1) :: ("y", tv.2)
            :: exog.map (fun e => (e, Value.nan)) ++ [(g, k.getD 0 Value.nan)]) g
            = k.getD 0 Value.nan := by
          rw [List.cons_append, List.cons_append,
            rget_cons_ne hog', rget_cons_ne (fun h => hgy h.symm),
            rget_append_right _ (fun p hp => by
              obtain ⟨e, he, rfl⟩ := List.mem_map.mp hp
              exact (hexog' e he).2.2.2.2.1),
            rget_cons_eq]
        rw [List.map_cons, List.map_nil, hrget, hgetD, hkr']
        rfl
      intro t
      rw [hgb, hdfside t]
      constructor
      · intro ht'
        obtain ⟨r, hr, rfl⟩ := List.mem_map.mp ht'
        obtain ⟨k, hk, hrow⟩ := List.mem_flatMap.mp hr
        obtain ⟨tv, htv, rfl⟩ := List.mem_map.mp hrow
        exact ⟨k, hk, htuple k hk tv⟩
      · rintro ⟨k, hk, rfl⟩
        obtain ⟨tv, htv⟩ := List.exists_mem_of_ne_nil _ (hne k hk)
        refine List.mem_map.mpr ⟨_, List.mem_flatMap.mpr ⟨k, hk,
          List.mem_map.mpr ⟨tv, htv, rfl⟩⟩, (htuple k hk tv)⟩

/-- Witness for C1: a two-column grouping with two groups round-trips, the
restored tuples matching the original ones. -/
theorem claim_C1_witness :
    ∃ odf, roundTrip idDT idResample dfRT sSlash [] = some odf ∧
      sSlash.order_by ∈ odf.cols ∧ (∀ g ∈ sSlash.group_by, g ∈ odf.cols) ∧
      ∀ t, t ∈ tupleStrs odf sSlash.group_by ↔ t ∈ tupleStrs dfRT sSlash.group_by :=
  claim_C1 idDT idResample dfRT sSlash [] (by decide) (by decide) (by decide) (by decide)
    (by decide) (by decide) (by decide) (by decide) (by decide) (by decide) (by decide)
    (by decide) (by decide) (by decide) (by decide) (by decide) (by decide)
    (fun _ _ h => h)

/-- **C1 counterexample:** with the grouping value `"a/b"` containing the
join delimiter, the round trip succeeds but the original grouping tuple
`("a/b", "c")` is not among the restored tuples (the split yields
`("a", "b")`). -/
theorem claim_C1_counterexample :
    ∃ odf, roundTrip idDT idResample dfSlash sSlash [] = some odf ∧
      ["a/b", "c"] ∈ tupleStrs dfSlash sSlash.group_by ∧
      ["a/b", "c"] ∉ tupleStrs odf sSlash.group_by := by
  refine ⟨_, rfl, by decide, by decide⟩

